import Mathlib

/-!
Shallow embedding of the verifactory belt-balancer verifier
(IR flow graph, simplifier, reversal and the SMT lowering), together
with theorems settling the frozen claims about it.

Source files embedded:
  - src/verifactory_lib/src/ir/graph_algos.rs   (simplify, coalesce, shrink)
  - src/src/ir/ir_def.rs                        (Node, Edge, Lattice, helpers)
  - src/verifactory_lib/src/ir/reverse.rs       (Reversable)
  - src/verifactory_lib/src/backends/model_entities.rs (Z3Node, Z3Edge)
  - src/verifactory_lib/src/backends/model_graph.rs    (model_f, predicates)
  - src/verifactory_lib/src/backends/proofs.rs         (ProofResult)

Capacities are `GenericFraction<u128>` in the source; the values the
program ever stores in them are non-negative rationals (the spec fixes
them as non-negative), so they are embedded as `NNRat`.
-/

instance (a b : NNRat) : Decidable (a ≤ b) := LinearOrder.decidableLE a b

instance (a b : NNRat) : Decidable (a < b) := LinearOrder.decidableLT a b

namespace Verifactory

/-- Entity identifier (`EntityId` in `entities.rs`). -/
abbrev EntityId := Nat

/-- Side enum from `utils.rs`: `{Left, Right, None}`. -/
inductive Side where
  | Left
  | Right
  | None
deriving DecidableEq, Repr

/-- Source `Side::is_none` from `utils.rs`. -/
def Side.is_none (s : Side) : Bool := s = Side.None

/-- Source `impl Neg for Side` from `utils.rs`: swaps Left and Right, fixes None. -/
def Side.neg : Side → Side
  | .None => .None
  | .Left => .Right
  | .Right => .Left

instance : Neg Side := ⟨Side.neg⟩

/-- Source `Splitter` node payload from `ir_def.rs`. -/
structure Splitter where
  output_priority : Side
  id : EntityId
deriving DecidableEq, Repr

/-- Source `Merger` node payload from `ir_def.rs`. -/
structure Merger where
  input_priority : Side
  id : EntityId
deriving DecidableEq, Repr

/-- Source `Connector` node payload from `ir_def.rs`. -/
structure Connector where
  id : EntityId
deriving DecidableEq, Repr

/-- Source `Input` node payload from `ir_def.rs`. -/
structure Input where
  id : EntityId
deriving DecidableEq, Repr

/-- Source `Output` node payload from `ir_def.rs`. -/
structure Output where
  id : EntityId
deriving DecidableEq, Repr

/-- The `Node` sum type of the IR graph from `ir_def.rs`. -/
inductive Node where
  | Splitter (s : Splitter)
  | Merger (m : Merger)
  | Connector (c : Connector)
  | Input (i : Input)
  | Output (o : Output)
deriving DecidableEq, Repr

/-- Source `Node::get_id` from `ir_def.rs`. -/
def Node.get_id : Node → EntityId
  | .Connector c => c.id
  | .Input i => i.id
  | .Merger m => m.id
  | .Output o => o.id
  | .Splitter s => s.id

/-- Source `Node::get_str` from `ir_def.rs`: a one-letter tag followed by the id. -/
def Node.get_str (n : Node) : String :=
  let tag :=
    match n with
    | .Connector _ => "c"
    | .Input _ => "i"
    | .Merger _ => "m"
    | .Output _ => "o"
    | .Splitter _ => "s"
  tag ++ Nat.repr n.get_id

/-- Edge label from `ir_def.rs`: a side and a capacity in items/s. -/
structure Edge where
  side : Side
  capacity : NNRat
deriving DecidableEq

/-- Source `Lattice::meet` on `Side` from `ir_def.rs`. -/
def Side.meet (a b : Side) : Side := if a = b then a else Side.None

/-- Source `Lattice::join` on `Side` from `ir_def.rs`; the source panics on
`(Left, Right)` and `(Right, Left)`, embedded as `none`. -/
def Side.join : Side → Side → Option Side
  | .None, x => some x
  | x, .None => some x
  | x, y => if x = y then some x else none

/-- Source `Lattice::can_join` on `Side` from `ir_def.rs`. -/
def Side.can_join : Side → Side → Bool
  | .Left, .Right => false
  | .Right, .Left => false
  | _, _ => true

/-- Source `Lattice::meet` on `Edge` from `ir_def.rs`. -/
def Edge.meet (a b : Edge) : Edge :=
  { side := a.side.meet b.side, capacity := min a.capacity b.capacity }

/-- Source `Lattice::join` on `Edge` from `ir_def.rs`; side join may panic
(embedded as `none`), the capacity is deliberately `min`, not `max`. -/
def Edge.join (a b : Edge) : Option Edge :=
  (a.side.join b.side).map fun s => { side := s, capacity := min a.capacity b.capacity }

/-- Source `Lattice::can_join` on `Edge` from `ir_def.rs`. -/
def Edge.can_join (a b : Edge) : Bool := a.side.can_join b.side

/-- Stable node index of the embedded graph. -/
abbrev NodeId := Nat

/-- Stable edge index of the embedded graph. -/
abbrev EdgeId := Nat

/-- A directed edge record: endpoints plus the `Edge` label. -/
structure EdgeRec where
  src : NodeId
  dst : NodeId
  w : Edge
deriving DecidableEq

/-- The IR flow graph (`FlowGraph = petgraph::Graph<Node, Edge>`),
embedded as association lists keyed by stable indices. -/
structure Graph where
  nodes : List (NodeId × Node)
  edges : List (EdgeId × EdgeRec)
deriving DecidableEq

/-- Node lookup by index. -/
def Graph.node? (g : Graph) (n : NodeId) : Option Node :=
  (g.nodes.find? fun p => p.1 = n).map Prod.snd

/-- Inbound edge records of a node (`GraphHelper` incoming direction). -/
def Graph.in_edges_of (g : Graph) (n : NodeId) : List (EdgeId × EdgeRec) :=
  g.edges.filter fun p => p.2.dst = n

/-- Outbound edge records of a node (`GraphHelper` outgoing direction). -/
def Graph.out_edges_of (g : Graph) (n : NodeId) : List (EdgeId × EdgeRec) :=
  g.edges.filter fun p => p.2.src = n

/-- Source `GraphHelper::in_deg`. -/
def Graph.in_deg (g : Graph) (n : NodeId) : Nat := (g.in_edges_of n).length

/-- Source `GraphHelper::out_deg`. -/
def Graph.out_deg (g : Graph) (n : NodeId) : Nat := (g.out_edges_of n).length

/-- Source `GraphHelper::in_nodes`: sources of the inbound edges. -/
def Graph.in_nodes (g : Graph) (n : NodeId) : List NodeId :=
  (g.in_edges_of n).map fun p => p.2.src

/-- Source `GraphHelper::out_nodes`: targets of the outbound edges. -/
def Graph.out_nodes (g : Graph) (n : NodeId) : List NodeId :=
  (g.out_edges_of n).map fun p => p.2.dst

/-- Source `GraphHelper::in_edges`: labels of the inbound edges. -/
def Graph.in_edges (g : Graph) (n : NodeId) : List Edge :=
  (g.in_edges_of n).map fun p => p.2.w

/-- Source `GraphHelper::out_edges`: labels of the outbound edges. -/
def Graph.out_edges (g : Graph) (n : NodeId) : List Edge :=
  (g.out_edges_of n).map fun p => p.2.w

/-- Source `GraphHelper::in_edge_idx`. -/
def Graph.in_edge_idx (g : Graph) (n : NodeId) : List EdgeId :=
  (g.in_edges_of n).map Prod.fst

/-- Source `GraphHelper::out_edge_idx`. -/
def Graph.out_edge_idx (g : Graph) (n : NodeId) : List EdgeId :=
  (g.out_edges_of n).map Prod.fst

/-- Source `GraphHelper::get_edge` in the `Outgoing` direction: first outbound
edge with the requested side label; the source unwraps, embedded as
`Option`. -/
def Graph.get_edge_out (g : Graph) (n : NodeId) (side : Side) : Option EdgeId :=
  ((g.out_edges_of n).find? fun p => p.2.w.side = side).map Prod.fst

/-- Capacity of the edge at an index (reads through `self[idx].capacity`;
missing indices, which panic in the source, read as `0`). -/
def Graph.capAt (g : Graph) (e : EdgeId) : NNRat :=
  match g.edges.find? fun p => p.1 = e with
  | some p => p.2.w.capacity
  | none => 0

/-- Write the capacity of the edge at an index
(`self[idx].capacity = c`). -/
def Graph.setCap (g : Graph) (e : EdgeId) (c : NNRat) : Graph :=
  { g with
    edges := g.edges.map fun p =>
      if p.1 = e then (p.1, { p.2 with w := { p.2.w with capacity := c } }) else p }

/-- Replace the node stored at an index (`self[node_idx] = node`). -/
def Graph.setNode (g : Graph) (n : NodeId) (node : Node) : Graph :=
  { g with nodes := g.nodes.map fun p => if p.1 = n then (p.1, node) else p }

/-- Source `Graph::remove_node`: drop the node and every incident edge. -/
def Graph.remove_node (g : Graph) (n : NodeId) : Graph :=
  { nodes := g.nodes.filter fun p => p.1 ≠ n,
    edges := g.edges.filter fun p => p.2.src ≠ n ∧ p.2.dst ≠ n }

/-- A fresh edge index for `add_edge`. -/
def Graph.freshEdgeId (g : Graph) : EdgeId :=
  (g.edges.map Prod.fst).foldr max 0 + 1

/-- Source `Graph::add_edge`: append a new edge with a fresh index. -/
def Graph.add_edge (g : Graph) (a b : NodeId) (w : Edge) : Graph :=
  { g with edges := g.edges ++ [(g.freshEdgeId, ⟨a, b, w⟩)] }

end Verifactory

namespace Verifactory

/-- Source `CoalesceStrength` from `graph_algos.rs`. -/
inductive CoalesceStrength where
  | Lossless
  | Aggressive
deriving DecidableEq, Repr

/-- Whether a looked-up node is a `Splitter` or a `Merger`
(the forbidden-pattern test of the connector coalesce rule). -/
def isSplitterOrMerger : Option Node → Bool
  | some (.Splitter _) => true
  | some (.Merger _) => true
  | _ => false

/-- One iteration body of `coalesce_nodes` from `graph_algos.rs` at a
single node: `some g'` when the rule fires (the source returns `true`
after mutating), `none` when the node is skipped. -/
def coalesceNodeStep (g : Graph) (strength : CoalesceStrength) (n : NodeId)
    (node : Node) : Option Graph :=
  let in_deg := g.in_deg n
  let out_deg := g.out_deg n
  match node with
  | .Input _ | .Output _ =>
    if in_deg = 0 ∧ out_deg = 0 then some (g.remove_node n) else none
  | _ =>
    if in_deg = 0 ∨ out_deg = 0 then some (g.remove_node n)
    else
      match g.in_nodes n, g.out_nodes n with
      | source_node :: _, target_node :: _ =>
        match node with
        | .Connector _ =>
          /- do not coalesce a connector sitting between splitters/mergers,
             this would break the edge side field -/
          if isSplitterOrMerger (g.node? source_node) ∧
              isSplitterOrMerger (g.node? target_node) then none
          else if strength = CoalesceStrength.Lossless ∧
              ¬((g.node? source_node).map Node.get_id = some node.get_id ∨
                (g.node? target_node).map Node.get_id = some node.get_id) then none
          else
            match g.in_edges n, g.out_edges n with
            | in_edge :: _, out_edge :: _ =>
              if in_edge.can_join out_edge then
                match in_edge.join out_edge with
                | some new_edge =>
                  some ((g.add_edge source_node target_node new_edge).remove_node n)
                | none => none
              else none
            | _, _ => none
        | .Merger _ | .Splitter _ =>
          -- skip if fully populated, otherwise demote to a connector
          if in_deg + out_deg = 3 then none
          else some (g.setNode n (.Connector ⟨node.get_id⟩))
        | _ => none
      | _, _ => none

/-- Source `coalesce_nodes` from `graph_algos.rs`: scan the nodes in index
order and apply the first firing rule; `none` means no rule fired
(the source returns `false`). -/
def coalesce_nodes (g : Graph) (strength : CoalesceStrength) : Option Graph :=
  g.nodes.findSome? fun p => coalesceNodeStep g strength p.1 p.2

/-- Source `shrink_capacity_connector` from `graph_algos.rs`. -/
def shrink_capacity_connector (g : Graph) (in_idx out_idx : EdgeId) :
    Graph × Bool :=
  let in_cap := g.capAt in_idx
  let out_cap := g.capAt out_idx
  if in_cap ≠ out_cap then
    let m := min in_cap out_cap
    ((g.setCap in_idx m).setCap out_idx m, true)
  else (g, false)

/-- Source `shrink_capacity_splitter_prio` from `graph_algos.rs`. -/
def shrink_capacity_splitter_prio (g : Graph)
    (in_idx prio_idx other_idx : EdgeId) : Graph × Bool :=
  let prio_cap : NNRat := g.capAt prio_idx
  let other_cap : NNRat := g.capAt other_idx
  let in_cap : NNRat := g.capAt in_idx
  let out_cap : NNRat := prio_cap + other_cap
  let t : NNRat × NNRat × NNRat :=
    if out_cap = in_cap then (in_cap, prio_cap, other_cap)
    else if out_cap < in_cap then (out_cap, prio_cap, other_cap)
    else if in_cap ≤ prio_cap then (in_cap, in_cap, 0)
    else (in_cap, prio_cap, in_cap - prio_cap)
  (((g.setCap in_idx t.1).setCap prio_idx t.2.1).setCap other_idx t.2.2,
    decide ((in_cap, prio_cap, other_cap) ≠ t))

/-- Source `shrink_capacity_splitter_no_prio` from `graph_algos.rs`; the
unreachable `(false, false)` arm panics in the source, embedded as
`none`. -/
def shrink_capacity_splitter_no_prio (g : Graph)
    (in_idx a_idx b_idx : EdgeId) : Option (Graph × Bool) :=
  let a_cap : NNRat := g.capAt a_idx
  let b_cap : NNRat := g.capAt b_idx
  let in_cap : NNRat := g.capAt in_idx
  let out_cap : NNRat := a_cap + b_cap
  let t? : Option (NNRat × NNRat × NNRat) :=
    if out_cap = in_cap then some (in_cap, a_cap, b_cap)
    else if out_cap < in_cap then some (out_cap, a_cap, b_cap)
    else
      let half_in : NNRat := in_cap / 2
      let a_big : Bool := decide (a_cap > half_in)
      let b_big : Bool := decide (b_cap > half_in)
      if a_big then
        if b_big then some (in_cap, half_in, half_in)
        else some (in_cap, in_cap - b_cap, b_cap)
      else
        if b_big then some (in_cap, a_cap, in_cap - a_cap)
        else none
  t?.map fun t =>
    (((g.setCap in_idx t.1).setCap a_idx t.2.1).setCap b_idx t.2.2,
      decide ((in_cap, a_cap, b_cap) ≠ t))

/-- Source `shrink_capacity_merger` from `graph_algos.rs`.  Note: the clamp of
the output capacity to `min(out, a + b)` is commented out in the source
(the FIXME "ugly fix"); when `a + b < out` the triple is left as is. -/
def shrink_capacity_merger (g : Graph) (out_idx a_idx b_idx : EdgeId) :
    Graph × Bool :=
  let out_cap := g.capAt out_idx
  let a_cap := g.capAt a_idx
  let b_cap := g.capAt b_idx
  let in_cap := a_cap + b_cap
  let t : NNRat × NNRat × NNRat :=
    if in_cap = out_cap then (out_cap, a_cap, b_cap)
    else if in_cap < out_cap then (out_cap, a_cap, b_cap)
    else (out_cap, min a_cap out_cap, min b_cap out_cap)
  (((g.setCap out_idx t.1).setCap a_idx t.2.1).setCap b_idx t.2.2,
    decide (t ≠ (out_cap, a_cap, b_cap)))

/-- One iteration body of `shrink_capacities` at a single node, from
`graph_algos.rs`.  The outer `none` models an out-of-bounds edge-index
panic of the source; otherwise the pair is the mutated graph and the
change flag. -/
def shrinkNodeStep (g : Graph) (n : NodeId) (node : Node) :
    Option (Graph × Bool) :=
  match node with
  | .Connector _ => do
    let in_idx ← (g.in_edge_idx n)[0]?
    let out_idx ← (g.out_edge_idx n)[0]?
    pure (shrink_capacity_connector g in_idx out_idx)
  | .Splitter s => do
    let in_idx ← (g.in_edge_idx n)[0]?
    if s.output_priority.is_none then
      let out_idxs := g.out_edge_idx n
      let a ← out_idxs[0]?
      let b ← out_idxs[1]?
      shrink_capacity_splitter_no_prio g in_idx a b
    else
      let prio_idx ← g.get_edge_out n s.output_priority
      let other_idx ← g.get_edge_out n (-s.output_priority)
      pure (shrink_capacity_splitter_prio g in_idx prio_idx other_idx)
  | .Merger _ => do
    let out_idx ← (g.out_edge_idx n)[0]?
    let in_idxs := g.in_edge_idx n
    let a ← in_idxs[0]?
    let b ← in_idxs[1]?
    pure (shrink_capacity_merger g out_idx a b)
  | _ => pure (g, false)

/-- Scan of `shrink_capacities`: `none` is a panic, `some none` means no
edge was mutated (the source returns `false`), `some (some g')` is the
graph after the first mutating node. -/
def shrinkScan (g : Graph) : List (NodeId × Node) → Option (Option Graph)
  | [] => some none
  | p :: rest =>
    match shrinkNodeStep g p.1 p.2 with
    | none => none
    | some (g', true) => some (some g')
    | some (g', false) => shrinkScan g' rest

/-- Source `shrink_capacities` from `graph_algos.rs`. -/
def shrink_capacities (g : Graph) : Option (Option Graph) :=
  shrinkScan g g.nodes

/-- Source `remove_false_io` from `graph_algos.rs`: repeatedly remove an
`Input`/`Output` node whose id is in the exclusion list (fuelled; each
step removes one node). -/
def removeFalseInputsOutputs : Nat → Graph → List EntityId → Graph
  | 0, g, _ => g
  | fuel + 1, g, exclude_list =>
    let hit := g.nodes.findSome? fun p =>
      match p.2 with
      | .Input _ | .Output _ =>
        if p.2.get_id ∈ exclude_list then some p.1 else none
      | _ => none
    match hit with
    | some n => removeFalseInputsOutputs fuel (g.remove_node n) exclude_list
    | none => g

/-- The `loop` of `simplify` from `graph_algos.rs`, fuelled: `none`
models nontermination of the fuel or a panic inside
`shrink_capacities`. -/
def simplifyLoop : Nat → Graph → CoalesceStrength → Option Graph
  | 0, _, _ => none
  | fuel + 1, g, strength =>
    match coalesce_nodes g strength with
    | some g' => simplifyLoop fuel g' strength
    | none =>
      match shrink_capacities g with
      | some (some g') => simplifyLoop fuel g' strength
      | some none => some g
      | none => none

/-- Source `simplify` from `graph_algos.rs`: drop excluded I/O, then rewrite to
a fixed point. -/
def simplify (fuel : Nat) (g : Graph) (exclude_list : List EntityId)
    (strength : CoalesceStrength) : Option Graph :=
  simplifyLoop fuel (removeFalseInputsOutputs g.nodes.length g exclude_list) strength

end Verifactory

namespace Verifactory

/-- Source `impl Reversable for Node` from `reverse.rs`: `Input ↔ Output`,
`Merger ↔ Splitter` with the priority negated, `Connector` self-dual. -/
def Node.reverse : Node → Node
  | .Connector c => .Connector ⟨c.id⟩
  | .Input i => .Output ⟨i.id⟩
  | .Output o => .Input ⟨o.id⟩
  | .Merger m => .Splitter ⟨-m.input_priority, m.id⟩
  | .Splitter s => .Merger ⟨-s.output_priority, s.id⟩

/-- Source `impl Reversable for Edge` from `reverse.rs`: negate the side. -/
def Edge.reverse (e : Edge) : Edge := { e with side := -e.side }

/-- Source `impl Reversable for FlowGraph` from `reverse.rs`: flip every edge
(`Graph::reverse`), negate every edge side, reverse every node. -/
def Graph.reverse (g : Graph) : Graph :=
  { nodes := g.nodes.map fun p => (p.1, p.2.reverse),
    edges := g.edges.map fun p =>
      (p.1, { src := p.2.dst, dst := p.2.src, w := p.2.w.reverse }) }

/-- Sort of an SMT constant declared in the solver context. -/
inductive ZSort where
  | real
  | int
  | bool
deriving DecidableEq, Repr

/-- Arithmetic SMT terms produced by the lowering: `Real` and `Int`
constants and literals, n-ary addition and int-to-real coercion. -/
inductive Term where
  | varR : String → Term
  | varI : String → Term
  | litR : ℚ → Term
  | litI : ℤ → Term
  | addR : List Term → Term
  | addI : List Term → Term
  | fromInt : Term → Term

/-- Name of a constant term, if it is one. -/
def Term.varName? : Term → Option String
  | .varR s => some s
  | .varI s => some s
  | _ => none

/-- Boolean SMT formulas produced by the lowering. -/
inductive BF where
  | bvar : String → BF
  | eq : Term → Term → BF
  | le : Term → Term → BF
  | ge : Term → Term → BF
  | and : List BF → BF
  | or : List BF → BF
  | not : BF → BF
  | implies : BF → BF → BF
  | iff : BF → BF → BF
  | ite : BF → BF → BF → BF
  | allR : List String → BF → BF
  | exR : List String → BF → BF

/-- A valuation of the SMT constants: reals, integers and booleans. -/
structure Env where
  r : String → ℚ
  i : String → ℤ
  b : String → Prop

/-- Update a real-valued valuation on a list of names, pointwise. -/
def updFun (f : String → ℚ) : List String → List ℚ → (String → ℚ)
  | [], _ => f
  | _, [] => f
  | x :: xs, v :: vs => fun s => if s = x then v else updFun f xs vs s

/-- Update the real part of an environment on a list of names. -/
def Env.updList (e : Env) (xs : List String) (vs : List ℚ) : Env :=
  { e with r := updFun e.r xs vs }

mutual

/-- Evaluation of a term under a valuation (integers are coerced into
the rationals at the boundary, as `Real::from_int` does). -/
def Term.eval (e : Env) : Term → ℚ
  | .varR s => e.r s
  | .varI s => (e.i s : ℚ)
  | .litR q => q
  | .litI z => (z : ℚ)
  | .addR l => Term.evalSum e l
  | .addI l => Term.evalSum e l
  | .fromInt t => Term.eval e t

/-- Sum of the evaluations of a list of terms (n-ary `add`). -/
def Term.evalSum (e : Env) : List Term → ℚ
  | [] => 0
  | t :: ts => Term.eval e t + Term.evalSum e ts

end

mutual

/-- Satisfaction of a formula under a valuation.  Quantifiers range over
real assignments to the bound constant names. -/
def BF.holds (e : Env) : BF → Prop
  | .bvar s => e.b s
  | .eq t u => t.eval e = u.eval e
  | .le t u => t.eval e ≤ u.eval e
  | .ge t u => t.eval e ≥ u.eval e
  | .and l => BF.holdsAll e l
  | .or l => BF.holdsAny e l
  | .not φ => ¬ BF.holds e φ
  | .implies φ ψ => BF.holds e φ → BF.holds e ψ
  | .iff φ ψ => (BF.holds e φ ↔ BF.holds e ψ)
  | .ite c t u => (BF.holds e c ∧ BF.holds e t) ∨ (¬ BF.holds e c ∧ BF.holds e u)
  | .allR xs φ => ∀ vs : List ℚ, vs.length = xs.length → BF.holds (e.updList xs vs) φ
  | .exR xs φ => ∃ vs : List ℚ, vs.length = xs.length ∧ BF.holds (e.updList xs vs) φ

/-- All formulas of a list hold (n-ary conjunction). -/
def BF.holdsAll (e : Env) : List BF → Prop
  | [] => True
  | φ :: rest => BF.holds e φ ∧ BF.holdsAll e rest

/-- Some formula of a list holds (n-ary disjunction). -/
def BF.holdsAny (e : Env) : List BF → Prop
  | [] => False
  | φ :: rest => BF.holds e φ ∨ BF.holdsAny e rest

end

/-- A formula is satisfiable when some valuation satisfies it. -/
def Satisfiable (φ : BF) : Prop := ∃ e : Env, φ.holds e

/-- Source `z3::SatResult`: the raw answer of the solver's `check`. -/
inductive SatResult where
  | Unknown
  | Unsat
  | Sat
deriving DecidableEq, Repr

/-- Source `ProofResult` from `proofs.rs`. -/
inductive ProofResult where
  | Unknown
  | Sat
  | Unsat
deriving DecidableEq, Repr

/-- Source `ProofResult::not` from `proofs.rs`. -/
def ProofResult.not : ProofResult → ProofResult
  | .Sat => .Unsat
  | .Unsat => .Sat
  | .Unknown => .Unknown

/-- Source `impl From<SatResult> for ProofResult` from `proofs.rs`. -/
def ProofResult.ofSatResult : SatResult → ProofResult
  | .Unknown => .Unknown
  | .Unsat => .Unsat
  | .Sat => .Sat

/-- Source `ModelFlags` from `model_graph.rs` (bitflags `Relaxed`, `Blocked`). -/
structure ModelFlags where
  Relaxed : Bool
  Blocked : Bool
deriving DecidableEq, Repr

/-- Source `ModelFlags::empty()`. -/
def ModelFlags.empty : ModelFlags := ⟨false, false⟩

/-- Association-list lookup, standing in for `HashMap::get`. -/
def lookupT {α : Type} (m : List (Nat × α)) (k : Nat) : Option α :=
  (m.find? fun p => p.1 = k).map Prod.snd

/-- Source `Z3QuantHelper` from `model_graph.rs`, plus `decls`, the record of
the constants declared in the solver context with their sorts.
Note: the source declares `input_map: HashMap<NodeIndex, Int>`. -/
structure Z3QuantHelper where
  edge_map : List (EdgeId × Term) := []
  input_map : List (NodeId × Term) := []
  output_map : List (NodeId × Term) := []
  others : List BF := []
  blocked_edge_map : List (EdgeId × BF) := []
  blocked_input_map : List (NodeId × BF) := []
  blocked_output_map : List (NodeId × BF) := []
  blocking : List BF := []
  decls : List (String × ZSort) := []

/-- The `edge_{src}_{dst}_{idx}` variable name from
`model_entities.rs` (`Z3Edge for Edge`). -/
def edgeName (g : Graph) (idx : EdgeId) (r : EdgeRec) : String :=
  let src_id := match g.node? r.src with | some n => n.get_str | none => ""
  let dst_id := match g.node? r.dst with | some n => n.get_str | none => ""
  "edge_" ++ src_id ++ "_" ++ dst_id ++ "_" ++ Nat.repr idx

/-- The `blocked_{src}_{dst}_{idx}` variable name from
`model_entities.rs`. -/
def blockedEdgeName (g : Graph) (idx : EdgeId) (r : EdgeRec) : String :=
  let src_id := match g.node? r.src with | some n => n.get_str | none => ""
  let dst_id := match g.node? r.dst with | some n => n.get_str | none => ""
  "blocked_" ++ src_id ++ "_" ++ dst_id ++ "_" ++ Nat.repr idx

/-- Source `impl Z3Edge for Edge` from `model_entities.rs`: declare a real
edge variable, bound it by `0` and the capacity, and under `Blocked`
declare the blocked boolean with `blocked ⇒ edge = 0`. -/
def edgeModel (g : Graph) (idx : EdgeId) (r : EdgeRec)
    (helper : Z3QuantHelper) (flags : ModelFlags) : Z3QuantHelper :=
  let capacity := Term.litR (r.w.capacity : ℚ)
  let name := edgeName g idx r
  let edge := Term.varR name
  let zero := Term.litR 0
  let h := { helper with
    others := helper.others ++ [BF.le edge capacity, BF.ge edge zero],
    edge_map := helper.edge_map ++ [(idx, edge)],
    decls := helper.decls ++ [(name, ZSort.real)] }
  if flags.Blocked then
    let bname := blockedEdgeName g idx r
    let blocked := BF.bvar bname
    { h with
      blocked_edge_map := h.blocked_edge_map ++ [(idx, blocked)],
      others := h.others ++ [BF.implies blocked (BF.eq edge zero)],
      decls := h.decls ++ [(bname, ZSort.bool)] }
  else h

/-- Source `kirchhoff_law` from `model_entities.rs`: sum of inbound edge
variables equals sum of outbound ones. -/
def kirchhoff_law (g : Graph) (n : NodeId) (helper : Z3QuantHelper) :
    Option Z3QuantHelper := do
  let in_consts ← (g.in_edge_idx n).mapM (lookupT helper.edge_map)
  let out_consts ← (g.out_edge_idx n).mapM (lookupT helper.edge_map)
  pure { helper with
    others := helper.others ++ [BF.eq (Term.addR in_consts) (Term.addR out_consts)] }

/-- Source `impl Z3Node for Connector` from `model_entities.rs`. -/
def connectorModel (g : Graph) (n : NodeId) (helper : Z3QuantHelper)
    (flags : ModelFlags) : Option Z3QuantHelper := do
  let h ← kirchhoff_law g n helper
  if flags.Blocked then
    let in_idx ← (g.in_edge_idx n)[0]?
    let out_idx ← (g.out_edge_idx n)[0]?
    let blocked_in ← lookupT h.blocked_edge_map in_idx
    let blocked_out ← lookupT h.blocked_edge_map out_idx
    pure { h with blocking := h.blocking ++ [BF.iff blocked_in blocked_out] }
  else pure h

/-- Source `impl Z3Node for Input` from `model_entities.rs`.  NOTE: the source
creates the input variable with `Real::new_const` and asserts
`input = out` with no coercion, although `Z3QuantHelper` declares
`input_map: HashMap<NodeIndex, Int>`. -/
def inputModel (g : Graph) (n : NodeId) (i : Input) (helper : Z3QuantHelper)
    (flags : ModelFlags) : Option Z3QuantHelper := do
  let input_name := "input_" ++ Nat.repr i.id
  let input := Term.varR input_name
  let h := { helper with
    input_map := helper.input_map ++ [(n, input)],
    decls := helper.decls ++ [(input_name, ZSort.real)] }
  let out_idx ← (g.out_edge_idx n)[0]?
  let out ← lookupT h.edge_map out_idx
  let h := { h with others := h.others ++ [BF.eq input out] }
  if flags.Blocked then
    let out_idx2 ← (g.out_edge_idx n)[0]?
    let b ← lookupT h.blocked_edge_map out_idx2
    pure { h with blocked_input_map := h.blocked_input_map ++ [(n, b)] }
  else pure h

/-- Modelled from the spec: the `Input` lowering as §4.E describes it
(no such code is present in the embedded source file — the claim's
variant): introduce an *integer* constant `input_id` and assert that it
equals the unique outgoing edge variable after coercion to real. -/
def inputModelSpec (g : Graph) (n : NodeId) (i : Input)
    (helper : Z3QuantHelper) : Option Z3QuantHelper := do
  let input_name := "input_" ++ Nat.repr i.id
  let input := Term.varI input_name
  let h := { helper with
    input_map := helper.input_map ++ [(n, input)],
    decls := helper.decls ++ [(input_name, ZSort.int)] }
  let out_idx ← (g.out_edge_idx n)[0]?
  let out ← lookupT h.edge_map out_idx
  pure { h with others := h.others ++ [BF.eq (Term.fromInt input) out] }

/-- Source `impl Z3Node for Output` from `model_entities.rs`. -/
def outputModel (g : Graph) (n : NodeId) (o : Output) (helper : Z3QuantHelper)
    (flags : ModelFlags) : Option Z3QuantHelper := do
  let output_name := "output_" ++ Nat.repr o.id
  let output := Term.varR output_name
  let in_idx ← (g.in_edge_idx n)[0]?
  let inp ← lookupT helper.edge_map in_idx
  let h := { helper with
    others := helper.others ++ [BF.eq output inp],
    output_map := helper.output_map ++ [(n, output)],
    decls := helper.decls ++ [(output_name, ZSort.real)] }
  if flags.Blocked then
    let in_idx2 ← (g.in_edge_idx n)[0]?
    let b ← lookupT h.blocked_edge_map in_idx2
    pure { h with blocked_output_map := h.blocked_output_map ++ [(n, b)] }
  else pure h

/-- Source `impl Z3Node for Merger` from `model_entities.rs`. -/
def mergerModel (g : Graph) (n : NodeId) (helper : Z3QuantHelper)
    (flags : ModelFlags) : Option Z3QuantHelper := do
  let h ← kirchhoff_law g n helper
  if flags.Blocked then
    let in_idx_1 ← (g.in_edge_idx n)[0]?
    let in_idx_2 ← (g.in_edge_idx n)[1]?
    let out_idx ← (g.out_edge_idx n)[0]?
    let b1 ← lookupT h.blocked_edge_map in_idx_1
    let b2 ← lookupT h.blocked_edge_map in_idx_2
    let bo ← lookupT h.blocked_edge_map out_idx
    let ast := BF.ite bo (BF.and [b1, b2]) (BF.not (BF.or [b1, b2]))
    pure { h with blocking := h.blocking ++ [ast] }
  else pure h

/-- Source `Splitter::get_splitter_cond` from `model_entities.rs`. -/
def get_splitter_cond (g : Graph) (s : Splitter) (n : NodeId)
    (helper : Z3QuantHelper) : Option BF := do
  let in_idx ← (g.in_edge_idx n)[0]?
  let in_var ← lookupT helper.edge_map in_idx
  let side := s.output_priority
  if side.is_none then
    let out_idxs := g.out_edge_idx n
    let a_idx ← out_idxs[0]?
    let b_idx ← out_idxs[1]?
    let a_cap := g.capAt a_idx
    let b_cap := g.capAt b_idx
    let mm := if a_cap ≤ b_cap then (a_idx, b_idx) else (b_idx, a_idx)
    let min_var ← lookupT helper.edge_map mm.1
    let max_var ← lookupT helper.edge_map mm.2
    let min_cap := g.capAt mm.1
    let min_cap_var := Term.litR (min_cap : ℚ)
    let out_min := min_cap * 2
    let out_min_var := Term.litR (out_min : ℚ)
    pure (BF.ite (BF.le in_var out_min_var)
      (BF.eq min_var max_var) (BF.eq min_var min_cap_var))
  else
    let prio_idx ← g.get_edge_out n side
    let other_idx ← g.get_edge_out n (-side)
    let prio_var ← lookupT helper.edge_map prio_idx
    let other_var ← lookupT helper.edge_map other_idx
    let prio_cap := g.capAt prio_idx
    let prio_cap_var := Term.litR (prio_cap : ℚ)
    let zero := Term.litR 0
    pure (BF.ite (BF.le in_var prio_cap_var)
      (BF.eq other_var zero) (BF.eq prio_var prio_cap_var))

/-- Source `impl Z3Node for Splitter` from `model_entities.rs`. -/
def splitterModel (g : Graph) (n : NodeId) (s : Splitter)
    (helper : Z3QuantHelper) (flags : ModelFlags) : Option Z3QuantHelper := do
  let h ← kirchhoff_law g n helper
  let splitter_cond ← get_splitter_cond g s n h
  if flags.Relaxed then
    -- skip the splitter condition
    pure h
  else if flags.Blocked then
    let in_idx ← (g.in_edge_idx n)[0]?
    let out_idx_1 ← (g.out_edge_idx n)[0]?
    let out_idx_2 ← (g.out_edge_idx n)[1]?
    let bi ← lookupT h.blocked_edge_map in_idx
    let b1 ← lookupT h.blocked_edge_map out_idx_1
    let b2 ← lookupT h.blocked_edge_map out_idx_2
    let ast1 := BF.implies (BF.not (BF.or [b1, b2])) splitter_cond
    let ast2 := BF.ite (BF.and [b1, b2]) bi (BF.not bi)
    pure { h with others := h.others ++ [ast1], blocking := h.blocking ++ [ast2] }
  else
    pure { h with others := h.others ++ [splitter_cond] }

/-- Source `impl Z3Node for Node` from `model_entities.rs`: dispatch on the
variant. -/
def nodeModel (g : Graph) (n : NodeId) (node : Node) (helper : Z3QuantHelper)
    (flags : ModelFlags) : Option Z3QuantHelper :=
  match node with
  | .Connector _ => connectorModel g n helper flags
  | .Input i => inputModel g n i helper flags
  | .Output o => outputModel g n o helper flags
  | .Merger _ => mergerModel g n helper flags
  | .Splitter s => splitterModel g n s helper flags

/-- The lowering pass of `model_f` from `model_graph.rs`: model every
edge, then every node. -/
def mkHelper (g : Graph) (flags : ModelFlags) : Option Z3QuantHelper := do
  let h := g.edges.foldl (fun h p => edgeModel g p.1 p.2 h flags) {}
  g.nodes.foldlM (fun h p => nodeModel g p.1 p.2 h flags) h

/-- Source `vec_and` from `model_graph.rs`. -/
def vec_and (l : List BF) : BF := BF.and l

/-- Source `ProofPrimitives` from `model_graph.rs`. -/
structure ProofPrimitives where
  graph : Graph
  input_bounds : List Term
  input_map : List (NodeId × Term)
  output_bounds : List Term
  output_map : List (NodeId × Term)
  blocked_input_map : List (NodeId × BF)
  blocked_output_map : List (NodeId × BF)
  edge_bounds : List Term
  model_constraint : BF
  blocking_constraint : List BF

/-- Assembly of `ProofPrimitives` inside `model_f` from
`model_graph.rs`. -/
def mkPrimitives (g : Graph) (flags : ModelFlags) : Option ProofPrimitives :=
  (mkHelper g flags).map fun h =>
    { graph := g,
      input_bounds := h.input_map.map Prod.snd,
      input_map := h.input_map,
      output_bounds := h.output_map.map Prod.snd,
      output_map := h.output_map,
      blocked_input_map := h.blocked_input_map,
      blocked_output_map := h.blocked_output_map,
      edge_bounds := h.edge_map.map Prod.snd,
      model_constraint := vec_and h.others,
      blocking_constraint := h.blocking }

/-- Source `equality` from `model_graph.rs`: conjunction of equalities of
adjacent pairs (`windows(2)`). -/
def equality (values : List Term) : BF :=
  BF.and ((values.zip values.tail).map fun p => BF.eq p.1 p.2)

/-- Source `belt_balancer_f` from `model_graph.rs`. -/
def belt_balancer_f (p : ProofPrimitives) : Option BF :=
  some (BF.and [BF.not (equality p.output_bounds), p.model_constraint])

/-- Source `equal_drain_f` from `model_graph.rs`. -/
def equal_drain_f (p : ProofPrimitives) : Option BF :=
  some (BF.and [p.model_constraint,
    BF.not (BF.implies (equality p.input_bounds) (equality p.output_bounds))])

/-- Source `FBEntity` as `throughput_unlimited` consumes it: an id and a
throughput (cast to `i64` in the source). -/
structure FBEntity where
  id : EntityId
  throughput : ℤ
deriving DecidableEq, Repr

/-- Source `throughput_unlimited` from `model_graph.rs` (the returned closure);
entity lookups unwrap in the source, hence `Option`. -/
def throughput_unlimited (entities : List FBEntity) (p : ProofPrimitives) :
    Option BF := do
  let zeroI := Term.litI 0
  let input_constraints ← p.input_map.mapM fun q => do
    let lower := BF.ge q.2 zeroI
    let nd ← p.graph.node? q.1
    let ent ← entities.find? fun e => e.id = nd.get_id
    let upper := BF.le q.2 (Term.litI ent.throughput)
    pure (BF.and [lower, upper])
  let input_condition := vec_and input_constraints
  let zeroR := Term.fromInt zeroI
  let output_constraints ← p.output_map.mapM fun q => do
    let lower := BF.ge q.2 zeroR
    let nd ← p.graph.node? q.1
    let ent ← entities.find? fun e => e.id = nd.get_id
    let upper := BF.le q.2 (Term.fromInt (Term.litI ent.throughput))
    pure (BF.and [lower, upper])
  let output_condition := vec_and output_constraints
  let outputs := p.output_map.map Prod.snd
  let output_sum := if outputs.isEmpty then zeroR else Term.addR outputs
  let inputs := p.input_map.map Prod.snd
  let input_sum := if inputs.isEmpty then zeroR else Term.fromInt (Term.addI inputs)
  let in_out_eq := BF.eq input_sum output_sum
  let no_model := BF.allR (p.edge_bounds.filterMap Term.varName?)
    (BF.not p.model_constraint)
  pure (BF.and [input_condition, output_condition, in_out_eq, no_model])

/-- Source `universal_balancer` from `model_graph.rs`; the blocked-output
lookups unwrap in the source, hence `Option`. -/
def universal_balancer (p : ProofPrimitives) : Option BF := do
  let eq_value := Term.varR "output_value"
  let outputs_eq_value ← p.output_map.mapM fun q => do
    let is_blocked ← lookupT p.blocked_output_map q.1
    pure (BF.implies (BF.not is_blocked) (BF.eq q.2 eq_value))
  let out_eq := vec_and outputs_eq_value
  let out_eq_condition := BF.exR ["output_value"] out_eq
  let blocking_p := vec_and p.blocking_constraint
  pure (BF.and [blocking_p, p.model_constraint, BF.not out_eq_condition])

/-- Source `model_f` from `model_graph.rs`, with the external solver `check`
passed as a function: lower the graph, build the predicate, run
`check` and report the *negation* of its answer. -/
def model_f (check : BF → SatResult) (g : Graph)
    (f : ProofPrimitives → Option BF) (flags : ModelFlags) :
    Option ProofResult := do
  let p ← mkPrimitives g flags
  let φ ← f p
  pure (ProofResult.ofSatResult (check φ)).not

/-- The empty flow graph, as built from the empty blueprint. -/
def emptyGraph : Graph := { nodes := [], edges := [] }

/-- A `check` function is sound when a `Sat` answer implies the asserted
formula is satisfiable (part of the SMT-engine contract of §6). -/
def SoundCheck (check : BF → SatResult) : Prop :=
  ∀ φ : BF, check φ = SatResult.Sat → Satisfiable φ

end Verifactory

namespace Verifactory

/-- The per-variant degree conditions exactly as claim C4 states them:
Splitter out-degree 2, Merger in-degree 2, Connector 1/1, Input 0/1,
Output 1/0. -/
def nodeDegreesClaimed (g : Graph) (n : NodeId) : Node → Bool
  | .Splitter _ => decide (g.out_deg n = 2)
  | .Merger _ => decide (g.in_deg n = 2)
  | .Connector _ => decide (g.in_deg n = 1 ∧ g.out_deg n = 1)
  | .Input _ => decide (g.in_deg n = 0 ∧ g.out_deg n = 1)
  | .Output _ => decide (g.in_deg n = 1 ∧ g.out_deg n = 0)

/-- Claim C4's invariant over the whole graph. -/
def degreeInvariantsClaimed (g : Graph) : Bool :=
  g.nodes.all fun p => nodeDegreesClaimed g p.1 p.2

/-- The degree conditions that actually hold at a `coalesce_nodes`
fixed point: isolated I/O removed, interior nodes with both degrees
positive, splitters/mergers with total degree exactly 3. -/
def nodeDegreesAtFixpoint (g : Graph) (n : NodeId) : Node → Bool
  | .Input _ => decide (¬(g.in_deg n = 0 ∧ g.out_deg n = 0))
  | .Output _ => decide (¬(g.in_deg n = 0 ∧ g.out_deg n = 0))
  | .Connector _ => decide (1 ≤ g.in_deg n ∧ 1 ≤ g.out_deg n)
  | .Splitter _ => decide (1 ≤ g.in_deg n ∧ 1 ≤ g.out_deg n ∧
      g.in_deg n + g.out_deg n = 3)
  | .Merger _ => decide (1 ≤ g.in_deg n ∧ 1 ≤ g.out_deg n ∧
      g.in_deg n + g.out_deg n = 3)

/-- The fixed-point invariant over the whole graph. -/
def degreeInvariantsAtFixpoint (g : Graph) : Bool :=
  g.nodes.all fun p => nodeDegreesAtFixpoint g p.1 p.2

/-- Two `Input` nodes joined by an edge: `simplify` returns it
unchanged, yet node 0 is an `Input` with in-degree 1. -/
def gTwoInputs : Graph :=
  { nodes := [(0, .Input ⟨0⟩), (1, .Input ⟨1⟩)],
    edges := [(0, ⟨1, 0, ⟨Side.None, 15⟩⟩)] }

/-- A merger whose inputs sum below the output capacity:
`a + b = 2 + 3 < 10 = out`. -/
def gMergerLess : Graph :=
  { nodes := [(0, .Input ⟨0⟩), (1, .Input ⟨1⟩), (2, .Merger ⟨Side.None, 2⟩),
      (3, .Output ⟨3⟩)],
    edges := [(0, ⟨0, 2, ⟨Side.Left, 2⟩⟩), (1, ⟨1, 2, ⟨Side.Right, 3⟩⟩),
      (2, ⟨2, 3, ⟨Side.None, 10⟩⟩)] }

/-- A merger whose inputs sum above the output capacity:
`a + b = 20 + 4 > 10 = out`. -/
def gMergerGreater : Graph :=
  { nodes := [(0, .Input ⟨0⟩), (1, .Input ⟨1⟩), (2, .Merger ⟨Side.None, 2⟩),
      (3, .Output ⟨3⟩)],
    edges := [(0, ⟨0, 2, ⟨Side.Left, 20⟩⟩), (1, ⟨1, 2, ⟨Side.Right, 4⟩⟩),
      (2, ⟨2, 3, ⟨Side.None, 10⟩⟩)] }

/-- A connector with differing incident capacities (10 in, 5 out). -/
def gConnCaps : Graph :=
  { nodes := [(0, .Input ⟨0⟩), (1, .Connector ⟨1⟩), (2, .Output ⟨2⟩)],
    edges := [(0, ⟨0, 1, ⟨Side.None, 10⟩⟩), (1, ⟨1, 2, ⟨Side.None, 5⟩⟩)] }

/-- A splitter without priority, outputs of capacity 10 and 20, input
of capacity 15. -/
def gSplit : Graph :=
  { nodes := [(0, .Input ⟨0⟩), (1, .Splitter ⟨Side.None, 1⟩),
      (2, .Output ⟨2⟩), (3, .Output ⟨3⟩)],
    edges := [(0, ⟨0, 1, ⟨Side.None, 15⟩⟩), (1, ⟨1, 2, ⟨Side.Left, 10⟩⟩),
      (2, ⟨1, 3, ⟨Side.Right, 20⟩⟩)] }

/-- A splitter without priority whose outputs (2 and 3) sum below the
input capacity 10. -/
def gSplitLess : Graph :=
  { nodes := [(0, .Input ⟨0⟩), (1, .Splitter ⟨Side.None, 1⟩),
      (2, .Output ⟨2⟩), (3, .Output ⟨3⟩)],
    edges := [(0, ⟨0, 1, ⟨Side.None, 10⟩⟩), (1, ⟨1, 2, ⟨Side.Left, 2⟩⟩),
      (2, ⟨1, 3, ⟨Side.Right, 3⟩⟩)] }

/-- The same splitter with output priority `Left`. -/
def gSplitPrio : Graph :=
  { nodes := [(0, .Input ⟨0⟩), (1, .Splitter ⟨Side.Left, 1⟩),
      (2, .Output ⟨2⟩), (3, .Output ⟨3⟩)],
    edges := [(0, ⟨0, 1, ⟨Side.None, 15⟩⟩), (1, ⟨1, 2, ⟨Side.Left, 10⟩⟩),
      (2, ⟨1, 3, ⟨Side.Right, 20⟩⟩)] }

/-- A helper populated with one edge variable per edge of `gSplit`
(resp. `gSplitPrio`, which has the same edge indices). -/
def splitHelper : Z3QuantHelper :=
  { edge_map := [(0, Term.varR "e0"), (1, Term.varR "e1"), (2, Term.varR "e2")] }

/-- An `Input` (entity 3) feeding an `Output` (entity 4): the failing
input for the integer-sort claim about the `Input` lowering. -/
def gInOut : Graph :=
  { nodes := [(0, .Input ⟨3⟩), (1, .Output ⟨4⟩)],
    edges := [(0, ⟨0, 1, ⟨Side.None, 15⟩⟩)] }

/-- The helper state of `model_f` on `gInOut` after the edge pass,
before the node pass. -/
def gInOutEdgePhase : Z3QuantHelper :=
  gInOut.edges.foldl (fun h p => edgeModel gInOut p.1 p.2 h ModelFlags.empty) {}

/-- A fixed example valuation. -/
def env0 : Env := { r := fun _ => 0, i := fun _ => 0, b := fun _ => True }

/-- Whether an edge index is present in the graph. -/
def Graph.hasEdge (g : Graph) (e : EdgeId) : Bool :=
  (g.edges.find? fun p => p.1 = e).isSome

/-- The capacity triple computed by `shrink_capacity_merger`. -/
def tMerger (g : Graph) (out_idx a_idx b_idx : EdgeId) : NNRat × NNRat × NNRat :=
  let out_cap := g.capAt out_idx
  let a_cap := g.capAt a_idx
  let b_cap := g.capAt b_idx
  let in_cap := a_cap + b_cap
  if in_cap = out_cap then (out_cap, a_cap, b_cap)
  else if in_cap < out_cap then (out_cap, a_cap, b_cap)
  else (out_cap, min a_cap out_cap, min b_cap out_cap)

/-- The capacity triple computed by `shrink_capacity_splitter_prio`. -/
def tSplitterPrio (g : Graph) (in_idx prio_idx other_idx : EdgeId) :
    NNRat × NNRat × NNRat :=
  let prio_cap := g.capAt prio_idx
  let other_cap := g.capAt other_idx
  let in_cap := g.capAt in_idx
  let out_cap := prio_cap + other_cap
  if out_cap = in_cap then (in_cap, prio_cap, other_cap)
  else if out_cap < in_cap then (out_cap, prio_cap, other_cap)
  else if in_cap ≤ prio_cap then (in_cap, in_cap, 0)
  else (in_cap, prio_cap, in_cap - prio_cap)

/-- The capacity triple computed by `shrink_capacity_splitter_no_prio`;
`none` is the unreachable panicking arm. -/
def tSplitterNoPrio (g : Graph) (in_idx a_idx b_idx : EdgeId) :
    Option (NNRat × NNRat × NNRat) :=
  let a_cap := g.capAt a_idx
  let b_cap := g.capAt b_idx
  let in_cap := g.capAt in_idx
  let out_cap := a_cap + b_cap
  if out_cap = in_cap then some (in_cap, a_cap, b_cap)
  else if out_cap < in_cap then some (out_cap, a_cap, b_cap)
  else
    let half_in := in_cap / 2
    let a_big : Bool := decide (a_cap > half_in)
    let b_big : Bool := decide (b_cap > half_in)
    if a_big then
      if b_big then some (in_cap, half_in, half_in)
      else some (in_cap, in_cap - b_cap, b_cap)
    else
      if b_big then some (in_cap, a_cap, in_cap - a_cap)
      else none

end Verifactory

namespace Verifactory

theorem shrink_merger_eq (g : Graph) (oi ai bi : EdgeId) :
    shrink_capacity_merger g oi ai bi =
      (((g.setCap oi (tMerger g oi ai bi).1).setCap ai
          (tMerger g oi ai bi).2.1).setCap bi (tMerger g oi ai bi).2.2,
        decide (tMerger g oi ai bi ≠ (g.capAt oi, g.capAt ai, g.capAt bi))) := rfl

theorem capAt_setCap (g : Graph) (e : EdgeId) (c : NNRat) (j : EdgeId) :
    (g.setCap e c).capAt j =
      if j = e ∧ g.hasEdge e = true then c else g.capAt j := by
  simp only [Graph.capAt, Graph.setCap, Graph.hasEdge]
  rw [List.find?_map]
  have hcomp : ((fun p : EdgeId × EdgeRec => decide (p.1 = j)) ∘
      (fun p : EdgeId × EdgeRec =>
        if p.1 = e then (p.1, { p.2 with w := { p.2.w with capacity := c } }) else p)) =
      fun p : EdgeId × EdgeRec => decide (p.1 = j) := by
    funext p; by_cases h : p.1 = e <;> simp [h]
  rw [hcomp]
  cases hf : g.edges.find? fun p => decide (p.1 = j) with
  | none =>
    simp only [Option.map_none']
    by_cases hje : j = e
    · subst hje
      cases hfe : g.edges.find? fun p => decide (p.1 = j) with
      | none => simp
      | some q => rw [hf] at hfe; exact absurd hfe (by simp)
    · simp [hje, hf]
  | some q =>
    have hq : q.1 = j := by simpa using List.find?_some hf
    simp only [Option.map_some']
    by_cases hje : j = e
    · subst hje
      have hsome : (g.edges.find? fun p => decide (p.1 = j)).isSome = true := by
        rw [hf]; rfl
      simp [hsome, hq, hf]
    · have : q.1 ≠ e := by rw [hq]; exact hje
      simp [this, hje, hf]

theorem hasEdge_setCap (g : Graph) (e : EdgeId) (c : NNRat) (x : EdgeId) :
    (g.setCap e c).hasEdge x = g.hasEdge x := by
  simp only [Graph.hasEdge, Graph.setCap]
  rw [List.find?_map]
  have hcomp : ((fun p : EdgeId × EdgeRec => decide (p.1 = x)) ∘
      (fun p : EdgeId × EdgeRec =>
        if p.1 = e then (p.1, { p.2 with w := { p.2.w with capacity := c } }) else p)) =
      fun p : EdgeId × EdgeRec => decide (p.1 = x) := by
    funext p; by_cases h : p.1 = e <;> simp [h]
  rw [hcomp]
  cases g.edges.find? fun p => decide (p.1 = x) <;> rfl

theorem hasEdge_of_capAt_ne_zero (g : Graph) (e : EdgeId)
    (h : g.capAt e ≠ 0) : g.hasEdge e = true := by
  simp only [Graph.capAt, Graph.hasEdge] at *
  cases hf : g.edges.find? fun p => decide (p.1 = e) with
  | none => rw [hf] at h; exact absurd rfl h
  | some q => rfl

theorem capAt_of_hasEdge_false (g : Graph) (e : EdgeId)
    (h : g.hasEdge e = false) : g.capAt e = 0 := by
  by_contra hne
  rw [hasEdge_of_capAt_ne_zero g e hne] at h
  simp at h

theorem capAt_write3 (g : Graph) (x y z : EdgeId) (tx ty tz : NNRat) (j : EdgeId) :
    (((g.setCap x tx).setCap y ty).setCap z tz).capAt j =
      if j = z ∧ g.hasEdge z = true then tz
      else if j = y ∧ g.hasEdge y = true then ty
      else if j = x ∧ g.hasEdge x = true then tx
      else g.capAt j := by
  by_cases hjz : j = z ∧ g.hasEdge z = true
  · simp [capAt_setCap, hasEdge_setCap, hjz]
  · by_cases hjy : j = y ∧ g.hasEdge y = true
    · simp [capAt_setCap, hasEdge_setCap, hjz, hjy]
    · by_cases hjx : j = x ∧ g.hasEdge x = true
      · simp [capAt_setCap, hasEdge_setCap, hjz, hjy, hjx]
      · simp [capAt_setCap, hasEdge_setCap, hjz, hjy, hjx]

theorem shrink_merger_caps (g : Graph) (oi ai bi : EdgeId)
    (hoa : oi ≠ ai) (hob : oi ≠ bi) (hab : ai ≠ bi) :
    (shrink_capacity_merger g oi ai bi).1.capAt oi = g.capAt oi ∧
    (shrink_capacity_merger g oi ai bi).1.capAt ai = min (g.capAt ai) (g.capAt oi) ∧
    (shrink_capacity_merger g oi ai bi).1.capAt bi = min (g.capAt bi) (g.capAt oi) ∧
    (∀ j, j ≠ oi → j ≠ ai → j ≠ bi →
      (shrink_capacity_merger g oi ai bi).1.capAt j = g.capAt j) ∧
    ((shrink_capacity_merger g oi ai bi).2 = true ↔
      g.capAt oi < g.capAt ai ∨ g.capAt oi < g.capAt bi) := by
  have huntouched : ∀ j, j ≠ oi → j ≠ ai → j ≠ bi →
      (shrink_capacity_merger g oi ai bi).1.capAt j = g.capAt j := by
    intro j h1 h2 h3
    rw [shrink_merger_eq]
    rw [capAt_write3]
    rw [if_neg (fun h => h3 h.1)]
    rw [if_neg (fun h => h2 h.1)]
    rw [if_neg (fun h => h1 h.1)]
  have h1 : (tMerger g oi ai bi).1 = g.capAt oi := by
    simp only [tMerger]
    split
    · rfl
    · split <;> rfl
  have h21 : (tMerger g oi ai bi).2.1 = min (g.capAt ai) (g.capAt oi) := by
    simp only [tMerger]
    split
    · next heq => exact (min_eq_left (le_of_le_of_eq (self_le_add_right _ _) heq)).symm
    · split
      · next hlt => exact (min_eq_left ((self_le_add_right _ _).trans hlt.le)).symm
      · rfl
  have h22 : (tMerger g oi ai bi).2.2 = min (g.capAt bi) (g.capAt oi) := by
    simp only [tMerger]
    split
    · next heq => exact (min_eq_left (le_of_le_of_eq (self_le_add_left _ _) heq)).symm
    · split
      · next hlt => exact (min_eq_left ((self_le_add_left _ _).trans hlt.le)).symm
      · rfl
  have hO : (shrink_capacity_merger g oi ai bi).1.capAt oi = g.capAt oi := by
    rw [shrink_merger_eq]
    rw [capAt_write3]
    rw [if_neg (fun h => hob h.1)]
    rw [if_neg (fun h => hoa h.1)]
    by_cases hoe : g.hasEdge oi = true
    · rw [if_pos ⟨rfl, hoe⟩, h1]
    · rw [if_neg (fun h => hoe h.2)]
  have hA : (shrink_capacity_merger g oi ai bi).1.capAt ai =
      min (g.capAt ai) (g.capAt oi) := by
    rw [shrink_merger_eq]
    rw [capAt_write3]
    rw [if_neg (fun h => hab h.1)]
    by_cases hae : g.hasEdge ai = true
    · rw [if_pos ⟨rfl, hae⟩, h21]
    · have h0 : g.capAt ai = 0 :=
        capAt_of_hasEdge_false g ai (by simpa using hae)
      rw [if_neg (fun h => hae h.2)]
      rw [if_neg (fun h => hoa h.1.symm)]
      rw [h0]
      exact (min_eq_left (zero_le _)).symm
  have hB : (shrink_capacity_merger g oi ai bi).1.capAt bi =
      min (g.capAt bi) (g.capAt oi) := by
    rw [shrink_merger_eq]
    rw [capAt_write3]
    by_cases hbe : g.hasEdge bi = true
    · rw [if_pos ⟨rfl, hbe⟩, h22]
    · have h0 : g.capAt bi = 0 :=
        capAt_of_hasEdge_false g bi (by simpa using hbe)
      rw [if_neg (fun h => hbe h.2)]
      rw [if_neg (fun h => hab h.1.symm)]
      rw [if_neg (fun h => hob h.1.symm)]
      rw [h0]
      exact (min_eq_left (zero_le _)).symm
  refine ⟨hO, hA, hB, huntouched, ?_⟩
  rw [shrink_merger_eq]
  simp only [decide_eq_true_eq]
  simp only [tMerger]
  split
  · next heq =>
    have ha : g.capAt ai ≤ g.capAt oi := le_of_le_of_eq (self_le_add_right _ _) heq
    have hb : g.capAt bi ≤ g.capAt oi := le_of_le_of_eq (self_le_add_left _ _) heq
    simp [ha.not_lt, hb.not_lt]
  · split
    · next hlt =>
      have ha : g.capAt ai ≤ g.capAt oi := (self_le_add_right _ _).trans hlt.le
      have hb : g.capAt bi ≤ g.capAt oi := (self_le_add_left _ _).trans hlt.le
      simp [ha.not_lt, hb.not_lt]
    · constructor
      · intro h
        by_contra hcon
        push_neg at hcon
        exact h (by rw [min_eq_left hcon.1, min_eq_left hcon.2])
      · rintro (h | h) heq
        · rw [Prod.mk.injEq, Prod.mk.injEq] at heq
          exact absurd (min_eq_left_iff.mp heq.2.1) h.not_le
        · rw [Prod.mk.injEq, Prod.mk.injEq] at heq
          exact absurd (min_eq_left_iff.mp heq.2.2) h.not_le

theorem shrink_splitter_prio_eq (g : Graph) (i p o : EdgeId) :
    shrink_capacity_splitter_prio g i p o =
      (((g.setCap i (tSplitterPrio g i p o).1).setCap p
          (tSplitterPrio g i p o).2.1).setCap o (tSplitterPrio g i p o).2.2,
        decide ((g.capAt i, g.capAt p, g.capAt o) ≠ tSplitterPrio g i p o)) := rfl

theorem shrink_splitter_no_prio_eq (g : Graph) (i a b : EdgeId) :
    shrink_capacity_splitter_no_prio g i a b =
      (tSplitterNoPrio g i a b).map fun t =>
        (((g.setCap i t.1).setCap a t.2.1).setCap b t.2.2,
          decide ((g.capAt i, g.capAt a, g.capAt b) ≠ t)) := rfl

theorem shrink_connector_eq (g : Graph) (i o : EdgeId) :
    shrink_capacity_connector g i o =
      if g.capAt i ≠ g.capAt o then
        ((g.setCap i (min (g.capAt i) (g.capAt o))).setCap o
          (min (g.capAt i) (g.capAt o)), true)
      else (g, false) := rfl

theorem capAt_write2 (g : Graph) (x y : EdgeId) (tx ty : NNRat) (j : EdgeId) :
    ((g.setCap x tx).setCap y ty).capAt j =
      if j = y ∧ g.hasEdge y = true then ty
      else if j = x ∧ g.hasEdge x = true then tx
      else g.capAt j := by
  by_cases hjy : j = y ∧ g.hasEdge y = true
  · simp [capAt_setCap, hasEdge_setCap, hjy]
  · by_cases hjx : j = x ∧ g.hasEdge x = true
    · simp [capAt_setCap, hasEdge_setCap, hjy, hjx]
    · simp [capAt_setCap, hasEdge_setCap, hjy, hjx]

theorem shrink_connector_mono (g : Graph) (i o : EdgeId) :
    (∀ j, (shrink_capacity_connector g i o).1.capAt j ≤ g.capAt j) ∧
    ((shrink_capacity_connector g i o).2 = true →
      ∃ j, (shrink_capacity_connector g i o).1.capAt j < g.capAt j) := by
  rw [shrink_connector_eq]
  by_cases hne : g.capAt i ≠ g.capAt o
  · rw [if_pos hne]
    have hio : i ≠ o := fun h => hne (h ▸ rfl)
    constructor
    · intro j
      rw [capAt_write2]
      by_cases hjo : j = o ∧ g.hasEdge o = true
      · rw [if_pos hjo, hjo.1]; exact min_le_right _ _
      · rw [if_neg hjo]
        by_cases hji : j = i ∧ g.hasEdge i = true
        · rw [if_pos hji, hji.1]; exact min_le_left _ _
        · rw [if_neg hji]
    · intro _
      rcases lt_or_gt_of_ne hne with hlt | hlt
      · refine ⟨o, ?_⟩
        have ho : g.hasEdge o = true :=
          hasEdge_of_capAt_ne_zero g o (ne_of_gt ((zero_le _).trans_lt hlt))
        have : ((g.setCap i (min (g.capAt i) (g.capAt o))).setCap o
            (min (g.capAt i) (g.capAt o))).capAt o = min (g.capAt i) (g.capAt o) := by
          rw [capAt_write2, if_pos ⟨rfl, ho⟩]
        rw [this, min_eq_left hlt.le]
        exact hlt
      · refine ⟨i, ?_⟩
        have hi : g.hasEdge i = true :=
          hasEdge_of_capAt_ne_zero g i (ne_of_gt ((zero_le _).trans_lt hlt))
        have : ((g.setCap i (min (g.capAt i) (g.capAt o))).setCap o
            (min (g.capAt i) (g.capAt o))).capAt i = min (g.capAt i) (g.capAt o) := by
          rw [capAt_write2, if_neg (fun h => hio h.1), if_pos ⟨rfl, hi⟩]
        rw [this, min_eq_right hlt.le]
        exact hlt
  · rw [if_neg hne]
    exact ⟨fun j => le_refl _, fun h => absurd h (by simp)⟩

theorem capAt_write3_at_x (g : Graph) (x y z : EdgeId) (tx ty tz : NNRat)
    (hxy : x ≠ y) (hxz : x ≠ z) :
    (((g.setCap x tx).setCap y ty).setCap z tz).capAt x =
      if g.hasEdge x = true then tx else g.capAt x := by
  rw [capAt_write3, if_neg (fun h => hxz h.1), if_neg (fun h => hxy h.1)]
  by_cases h : g.hasEdge x = true
  · rw [if_pos ⟨rfl, h⟩, if_pos h]
  · rw [if_neg (fun hh => h hh.2), if_neg h]

theorem capAt_write3_at_y' (g : Graph) (x y z : EdgeId) (tx ty tz : NNRat)
    (hxy : x ≠ y) (hyz : y ≠ z) :
    (((g.setCap x tx).setCap y ty).setCap z tz).capAt y =
      if g.hasEdge y = true then ty else g.capAt y := by
  rw [capAt_write3, if_neg (fun h => hyz h.1)]
  by_cases h : g.hasEdge y = true
  · rw [if_pos ⟨rfl, h⟩, if_pos h]
  · rw [if_neg (fun hh => h hh.2), if_neg (fun hh => hxy hh.1.symm), if_neg h]

theorem capAt_write3_at_z (g : Graph) (x y z : EdgeId) (tx ty tz : NNRat)
    (hxz : x ≠ z) (hyz : y ≠ z) :
    (((g.setCap x tx).setCap y ty).setCap z tz).capAt z =
      if g.hasEdge z = true then tz else g.capAt z := by
  rw [capAt_write3]
  by_cases h : g.hasEdge z = true
  · rw [if_pos ⟨rfl, h⟩, if_pos h]
  · rw [if_neg (fun hh => h hh.2), if_neg h,
      if_neg (fun hh => hyz hh.1.symm), if_neg (fun hh => hxz hh.1.symm)]

theorem shrink_splitter_prio_mono (g : Graph) (i p o : EdgeId)
    (hip : i ≠ p) (hio : i ≠ o) (hpo : p ≠ o) :
    (∀ j, (shrink_capacity_splitter_prio g i p o).1.capAt j ≤ g.capAt j) ∧
    ((shrink_capacity_splitter_prio g i p o).2 = true →
      ∃ j, (shrink_capacity_splitter_prio g i p o).1.capAt j < g.capAt j) := by
  rw [shrink_splitter_prio_eq]
  have hvi := capAt_write3_at_x g i p o (tSplitterPrio g i p o).1
    (tSplitterPrio g i p o).2.1 (tSplitterPrio g i p o).2.2 hip hio
  have hvp := capAt_write3_at_y' g i p o (tSplitterPrio g i p o).1
    (tSplitterPrio g i p o).2.1 (tSplitterPrio g i p o).2.2 hip hpo
  have hvo := capAt_write3_at_z g i p o (tSplitterPrio g i p o).1
    (tSplitterPrio g i p o).2.1 (tSplitterPrio g i p o).2.2 hio hpo
  have hother : ∀ j, j ≠ i → j ≠ p → j ≠ o →
      (((g.setCap i (tSplitterPrio g i p o).1).setCap p
        (tSplitterPrio g i p o).2.1).setCap o (tSplitterPrio g i p o).2.2).capAt j =
        g.capAt j := by
    intro j h1 h2 h3
    rw [capAt_write3, if_neg (fun h => h3 h.1), if_neg (fun h => h2 h.1),
      if_neg (fun h => h1 h.1)]
  have hbounds : (tSplitterPrio g i p o).1 ≤ g.capAt i ∧
      (tSplitterPrio g i p o).2.1 ≤ g.capAt p ∧
      (tSplitterPrio g i p o).2.2 ≤ g.capAt o := by
    simp only [tSplitterPrio]
    split
    · exact ⟨le_refl _, le_refl _, le_refl _⟩
    · split
      · next hlt => exact ⟨hlt.le, le_refl _, le_refl _⟩
      · next hne hnlt =>
        have hlt : g.capAt i < g.capAt p + g.capAt o :=
          lt_of_le_of_ne (not_lt.1 hnlt) (fun h => hne h.symm)
        split
        · next hle => exact ⟨le_refl _, hle, zero_le _⟩
        · exact ⟨le_refl _, le_refl _,
            tsub_le_iff_right.mpr (by rw [add_comm]; exact hlt.le)⟩
  have hmono : ∀ j, (((g.setCap i (tSplitterPrio g i p o).1).setCap p
      (tSplitterPrio g i p o).2.1).setCap o (tSplitterPrio g i p o).2.2).capAt j ≤
      g.capAt j := by
    intro j
    by_cases h1 : j = i
    · subst h1; rw [hvi]
      by_cases h : g.hasEdge j = true
      · rw [if_pos h]; exact hbounds.1
      · rw [if_neg h]
    · by_cases h2 : j = p
      · subst h2; rw [hvp]
        by_cases h : g.hasEdge j = true
        · rw [if_pos h]; exact hbounds.2.1
        · rw [if_neg h]
      · by_cases h3 : j = o
        · subst h3; rw [hvo]
          by_cases h : g.hasEdge j = true
          · rw [if_pos h]; exact hbounds.2.2
          · rw [if_neg h]
        · rw [hother j h1 h2 h3]
  refine ⟨hmono, ?_⟩
  intro hfl
  simp only [decide_eq_true_eq] at hfl
  by_cases hE : g.capAt p + g.capAt o = g.capAt i
  · have hT : tSplitterPrio g i p o = (g.capAt i, g.capAt p, g.capAt o) := by
      simp only [tSplitterPrio]; rw [if_pos hE]
    rw [hT] at hfl
    exact absurd rfl hfl
  · by_cases hL : g.capAt p + g.capAt o < g.capAt i
    · have hT : tSplitterPrio g i p o =
          (g.capAt p + g.capAt o, g.capAt p, g.capAt o) := by
        simp only [tSplitterPrio]; rw [if_neg hE, if_pos hL]
      refine ⟨i, ?_⟩
      have hpos : g.capAt i ≠ 0 := ne_of_gt ((zero_le _).trans_lt hL)
      rw [hvi, if_pos (hasEdge_of_capAt_ne_zero g i hpos), hT]
      exact hL
    · have hgt : g.capAt i < g.capAt p + g.capAt o :=
        lt_of_le_of_ne (not_lt.1 hL) (fun h => hE h.symm)
      by_cases hP : g.capAt i ≤ g.capAt p
      · have hT : tSplitterPrio g i p o = (g.capAt i, g.capAt i, 0) := by
          simp only [tSplitterPrio]; rw [if_neg hE, if_neg hL, if_pos hP]
        by_cases hpi : g.capAt p = g.capAt i
        · have hon : g.capAt o ≠ 0 := by
            intro h0
            rw [hT] at hfl
            exact hfl (by rw [hpi, h0])
          refine ⟨o, ?_⟩
          rw [hvo, if_pos (hasEdge_of_capAt_ne_zero g o hon), hT]
          exact zero_lt_iff.mpr hon
        · have hplt : g.capAt i < g.capAt p :=
            lt_of_le_of_ne hP (fun h => hpi h.symm)
          have hpn : g.capAt p ≠ 0 := ne_of_gt ((zero_le _).trans_lt hplt)
          refine ⟨p, ?_⟩
          rw [hvp, if_pos (hasEdge_of_capAt_ne_zero g p hpn), hT]
          exact hplt
      · have hplt : g.capAt p < g.capAt i := not_le.1 hP
        have hT : tSplitterPrio g i p o =
            (g.capAt i, g.capAt p, g.capAt i - g.capAt p) := by
          simp only [tSplitterPrio]; rw [if_neg hE, if_neg hL, if_neg hP]
        have hsub : g.capAt i - g.capAt p < g.capAt o :=
          (tsub_lt_iff_right hplt.le).mpr (by rw [add_comm] at hgt; exact hgt)
        have hon : g.capAt o ≠ 0 := ne_of_gt ((zero_le _).trans_lt hsub)
        refine ⟨o, ?_⟩
        rw [hvo, if_pos (hasEdge_of_capAt_ne_zero g o hon), hT]
        exact hsub

theorem shrink_splitter_no_prio_mono (g : Graph) (i a b : EdgeId)
    (hia : i ≠ a) (hib : i ≠ b) (hab : a ≠ b) (g' : Graph) (fl : Bool)
    (h : shrink_capacity_splitter_no_prio g i a b = some (g', fl)) :
    (∀ j, g'.capAt j ≤ g.capAt j) ∧
    (fl = true → ∃ j, g'.capAt j < g.capAt j) := by
  rw [shrink_splitter_no_prio_eq] at h
  obtain ⟨t, ht, heq⟩ := Option.map_eq_some'.mp h
  have hg' : g' = ((g.setCap i t.1).setCap a t.2.1).setCap b t.2.2 :=
    (congrArg Prod.fst heq).symm
  have hfl' : fl = decide ((g.capAt i, g.capAt a, g.capAt b) ≠ t) :=
    (congrArg Prod.snd heq).symm
  have hvi := capAt_write3_at_x g i a b t.1 t.2.1 t.2.2 hia hib
  have hva := capAt_write3_at_y' g i a b t.1 t.2.1 t.2.2 hia hab
  have hvb := capAt_write3_at_z g i a b t.1 t.2.1 t.2.2 hib hab
  have hother : ∀ j, j ≠ i → j ≠ a → j ≠ b →
      (((g.setCap i t.1).setCap a t.2.1).setCap b t.2.2).capAt j = g.capAt j := by
    intro j h1 h2 h3
    rw [capAt_write3, if_neg (fun hh => h3 hh.1), if_neg (fun hh => h2 hh.1),
      if_neg (fun hh => h1 hh.1)]
  have hmono : t.1 ≤ g.capAt i → t.2.1 ≤ g.capAt a → t.2.2 ≤ g.capAt b →
      ∀ j, (((g.setCap i t.1).setCap a t.2.1).setCap b t.2.2).capAt j ≤
        g.capAt j := by
    intro h1 h2 h3 j
    by_cases hj1 : j = i
    · subst hj1; rw [hvi]
      by_cases hh : g.hasEdge j = true
      · rw [if_pos hh]; exact h1
      · rw [if_neg hh]
    · by_cases hj2 : j = a
      · subst hj2; rw [hva]
        by_cases hh : g.hasEdge j = true
        · rw [if_pos hh]; exact h2
        · rw [if_neg hh]
      · by_cases hj3 : j = b
        · subst hj3; rw [hvb]
          by_cases hh : g.hasEdge j = true
          · rw [if_pos hh]; exact h3
          · rw [if_neg hh]
        · rw [hother j hj1 hj2 hj3]
  subst hg' hfl'
  by_cases hE : g.capAt a + g.capAt b = g.capAt i
  · have hsome : tSplitterNoPrio g i a b =
        some (g.capAt i, g.capAt a, g.capAt b) := by
      simp only [tSplitterNoPrio]; rw [if_pos hE]
    rw [hsome] at ht
    have hT : t = (g.capAt i, g.capAt a, g.capAt b) := (Option.some.inj ht).symm
    refine ⟨hmono (by rw [hT]) (by rw [hT]) (by rw [hT]), ?_⟩
    intro hfl
    rw [hT] at hfl
    simp at hfl
  · by_cases hL : g.capAt a + g.capAt b < g.capAt i
    · have hsome : tSplitterNoPrio g i a b =
          some (g.capAt a + g.capAt b, g.capAt a, g.capAt b) := by
        simp only [tSplitterNoPrio]; rw [if_neg hE, if_pos hL]
      rw [hsome] at ht
      have hT : t = (g.capAt a + g.capAt b, g.capAt a, g.capAt b) :=
        (Option.some.inj ht).symm
      have hipos : g.capAt i ≠ 0 := ne_of_gt ((zero_le _).trans_lt hL)
      refine ⟨hmono (by rw [hT]; exact hL.le) (by rw [hT]) (by rw [hT]), ?_⟩
      intro _
      refine ⟨i, ?_⟩
      rw [hvi, if_pos (hasEdge_of_capAt_ne_zero g i hipos), hT]
      exact hL
    · have hgt : g.capAt i < g.capAt a + g.capAt b :=
        lt_of_le_of_ne (not_lt.1 hL) (fun hh => hE hh.symm)
      by_cases hA : g.capAt i / 2 < g.capAt a
      · by_cases hB : g.capAt i / 2 < g.capAt b
        · have hsome : tSplitterNoPrio g i a b =
              some (g.capAt i, g.capAt i / 2, g.capAt i / 2) := by
            simp only [tSplitterNoPrio, decide_eq_true_eq]
            rw [if_neg hE, if_neg hL, if_pos hA, if_pos hB]
          rw [hsome] at ht
          have hT : t = (g.capAt i, g.capAt i / 2, g.capAt i / 2) :=
            (Option.some.inj ht).symm
          have han : g.capAt a ≠ 0 := ne_of_gt ((zero_le _).trans_lt hA)
          refine ⟨hmono (by rw [hT]) (by rw [hT]; exact hA.le)
            (by rw [hT]; exact hB.le), ?_⟩
          intro _
          refine ⟨a, ?_⟩
          rw [hva, if_pos (hasEdge_of_capAt_ne_zero g a han), hT]
          exact hA
        · have hble : g.capAt b ≤ g.capAt i / 2 := not_lt.1 hB
          have hbin : g.capAt b ≤ g.capAt i :=
            hble.trans (div_le_self (zero_le _) one_le_two)
          have hsome : tSplitterNoPrio g i a b =
              some (g.capAt i, g.capAt i - g.capAt b, g.capAt b) := by
            simp only [tSplitterNoPrio, decide_eq_true_eq]
            rw [if_neg hE, if_neg hL, if_pos hA, if_neg hB]
          rw [hsome] at ht
          have hT : t = (g.capAt i, g.capAt i - g.capAt b, g.capAt b) :=
            (Option.some.inj ht).symm
          have hstrict : g.capAt i - g.capAt b < g.capAt a :=
            (tsub_lt_iff_right hbin).mpr hgt
          have han : g.capAt a ≠ 0 := ne_of_gt ((zero_le _).trans_lt hstrict)
          refine ⟨hmono (by rw [hT]) (by rw [hT]; exact hstrict.le)
            (by rw [hT]), ?_⟩
          intro _
          refine ⟨a, ?_⟩
          rw [hva, if_pos (hasEdge_of_capAt_ne_zero g a han), hT]
          exact hstrict
      · by_cases hB : g.capAt i / 2 < g.capAt b
        · have hale : g.capAt a ≤ g.capAt i / 2 := not_lt.1 hA
          have hain : g.capAt a ≤ g.capAt i :=
            hale.trans (div_le_self (zero_le _) one_le_two)
          have hsome : tSplitterNoPrio g i a b =
              some (g.capAt i, g.capAt a, g.capAt i - g.capAt a) := by
            simp only [tSplitterNoPrio, decide_eq_true_eq]
            rw [if_neg hE, if_neg hL, if_neg hA, if_pos hB]
          rw [hsome] at ht
          have hT : t = (g.capAt i, g.capAt a, g.capAt i - g.capAt a) :=
            (Option.some.inj ht).symm
          have hstrict : g.capAt i - g.capAt a < g.capAt b :=
            (tsub_lt_iff_right hain).mpr (by rw [add_comm] at hgt; exact hgt)
          have hbn : g.capAt b ≠ 0 := ne_of_gt ((zero_le _).trans_lt hstrict)
          refine ⟨hmono (by rw [hT]) (by rw [hT])
            (by rw [hT]; exact hstrict.le), ?_⟩
          intro _
          refine ⟨b, ?_⟩
          rw [hvb, if_pos (hasEdge_of_capAt_ne_zero g b hbn), hT]
          exact hstrict
        · have hsome : tSplitterNoPrio g i a b = none := by
            simp only [tSplitterNoPrio, decide_eq_true_eq]
            rw [if_neg hE, if_neg hL, if_neg hA, if_neg hB]
          rw [hsome] at ht
          exact absurd ht (by simp)

end Verifactory

namespace Verifactory

theorem side_neg_neg (s : Side) : -(-s) = s := by cases s <;> rfl

theorem node_reverse_reverse (n : Node) : n.reverse.reverse = n := by
  cases n with
  | Splitter s => cases s; simp [Node.reverse, side_neg_neg]
  | Merger m => cases m; simp [Node.reverse, side_neg_neg]
  | Connector c => rfl
  | Input i => rfl
  | Output o => rfl

theorem edge_reverse_reverse (e : Edge) : e.reverse.reverse = e := by
  cases e; simp [Edge.reverse, side_neg_neg]

/-- C8: reversal is an involution: reversing a flow graph twice restores
it exactly (node variants via `Input ↔ Output`, `Merger ↔ Splitter` with
negated priority, `Connector` self-dual; every edge direction, side and
capacity restored), and one reversal maps the variants and the edge
labels as stated. -/
theorem reverse_involution :
    (∀ g : Graph, g.reverse.reverse = g) ∧
    (∀ n : Node, n.reverse.reverse = n) ∧
    (∀ i : Input, Node.reverse (.Input i) = .Output ⟨i.id⟩) ∧
    (∀ o : Output, Node.reverse (.Output o) = .Input ⟨o.id⟩) ∧
    (∀ m : Merger, Node.reverse (.Merger m) = .Splitter ⟨-m.input_priority, m.id⟩) ∧
    (∀ s : Splitter, Node.reverse (.Splitter s) = .Merger ⟨-s.output_priority, s.id⟩) ∧
    (∀ c : Connector, Node.reverse (.Connector c) = .Connector c) ∧
    (∀ e : Edge, e.reverse.side = -e.side ∧ e.reverse.capacity = e.capacity) := by
  refine ⟨?_, node_reverse_reverse, fun i => rfl, fun o => rfl, fun m => rfl,
    fun s => rfl, fun c => rfl, fun e => ⟨rfl, rfl⟩⟩
  intro g
  cases g with
  | mk ns es =>
    simp only [Graph.reverse, Graph.mk.injEq]
    constructor
    · induction ns with
      | nil => rfl
      | cons hd tl ih =>
        simp only [List.map_cons, List.cons.injEq]
        exact ⟨by rw [node_reverse_reverse], ih⟩
    · induction es with
      | nil => rfl
      | cons hd tl ih =>
        simp only [List.map_cons, List.cons.injEq]
        refine ⟨?_, ih⟩
        cases hd with
        | mk eid rec =>
          cases rec
          simp [edge_reverse_reverse]

/-- C6: the proof driver reports the negation of the solver's answer:
a solver `Sat` is reported as `Unsat`, a solver `Unsat` as `Sat`, and
`Unknown` is propagated unchanged; `model_f` returns exactly the
negation of the converted `check` result. -/
theorem proof_driver_negates :
    ProofResult.not (ProofResult.ofSatResult SatResult.Sat) = ProofResult.Unsat ∧
    ProofResult.not (ProofResult.ofSatResult SatResult.Unsat) = ProofResult.Sat ∧
    ProofResult.not (ProofResult.ofSatResult SatResult.Unknown) = ProofResult.Unknown ∧
    (∀ (check : BF → SatResult) (g : Graph) (f : ProofPrimitives → Option BF)
      (flags : ModelFlags) (p : ProofPrimitives) (φ : BF),
      mkPrimitives g flags = some p → f p = some φ →
      model_f check g f flags = some (ProofResult.ofSatResult (check φ)).not) := by
  refine ⟨rfl, rfl, rfl, ?_⟩
  intro check g f flags p φ hp hf
  simp [model_f, hp, hf]

/-- Witness for C6 at the empty graph and the belt-balancer predicate,
with a solver constantly answering `Sat`. -/
theorem proof_driver_negates_witness :
    model_f (fun _ => SatResult.Sat) emptyGraph belt_balancer_f ModelFlags.empty =
      some ProofResult.Unsat :=
  proof_driver_negates.2.2.2 (fun _ => SatResult.Sat) emptyGraph belt_balancer_f
    ModelFlags.empty
    { graph := emptyGraph, input_bounds := [], input_map := [],
      output_bounds := [], output_map := [], blocked_input_map := [],
      blocked_output_map := [], edge_bounds := [],
      model_constraint := vec_and [], blocking_constraint := [] }
    (BF.and [BF.not (equality []), BF.and []]) rfl rfl

end Verifactory

namespace Verifactory

/-- C1 counterexample: on `gMergerLess` (inputs 2 and 3, output 10) the
claim says one firing sets the output capacity to `min(10, 2+3) = 5`;
the code leaves it at 10 and reports no change. -/
theorem merger_shrink_keeps_output_cex :
    (shrink_capacity_merger gMergerLess 2 0 1).1.capAt 2 = 10 ∧
    min (gMergerLess.capAt 2) (gMergerLess.capAt 0 + gMergerLess.capAt 1) = 5 ∧
    (10 : NNRat) ≠ 5 ∧
    (shrink_capacity_merger gMergerLess 2 0 1).2 = false := by
  refine ⟨?_, ?_, by norm_num, ?_⟩
  · norm_num [shrink_capacity_merger, gMergerLess, Graph.capAt, Graph.setCap,
      List.find?]
  · norm_num [gMergerLess, Graph.capAt, List.find?]
  · norm_num [shrink_capacity_merger, gMergerLess, Graph.capAt, Graph.setCap,
      List.find?]

/-- C1 (amended): one invocation of `shrink_capacity_merger` on three
distinct edges leaves the outgoing capacity unchanged, clamps each
incoming capacity to the minimum of itself and the outgoing capacity,
leaves every other edge untouched, and reports a change exactly when
some incoming capacity exceeds the outgoing one; in particular when
`a + b < out` the outgoing capacity is not reduced. -/
theorem shrink_capacity_merger_spec (g : Graph) (out_idx a_idx b_idx : EdgeId)
    (h1 : out_idx ≠ a_idx) (h2 : out_idx ≠ b_idx) (h3 : a_idx ≠ b_idx) :
    (shrink_capacity_merger g out_idx a_idx b_idx).1.capAt out_idx =
      g.capAt out_idx ∧
    (shrink_capacity_merger g out_idx a_idx b_idx).1.capAt a_idx =
      min (g.capAt a_idx) (g.capAt out_idx) ∧
    (shrink_capacity_merger g out_idx a_idx b_idx).1.capAt b_idx =
      min (g.capAt b_idx) (g.capAt out_idx) ∧
    (∀ j, j ≠ out_idx → j ≠ a_idx → j ≠ b_idx →
      (shrink_capacity_merger g out_idx a_idx b_idx).1.capAt j = g.capAt j) ∧
    ((shrink_capacity_merger g out_idx a_idx b_idx).2 = true ↔
      g.capAt out_idx < g.capAt a_idx ∨ g.capAt out_idx < g.capAt b_idx) :=
  shrink_merger_caps g out_idx a_idx b_idx h1 h2 h3

/-- Witness for C1 (amended) on `gMergerGreater`. -/
theorem shrink_capacity_merger_spec_witness :
    ((2 : EdgeId) ≠ 0 ∧ (2 : EdgeId) ≠ 1 ∧ (0 : EdgeId) ≠ 1) ∧
    ((shrink_capacity_merger gMergerGreater 2 0 1).1.capAt 2 =
        gMergerGreater.capAt 2 ∧
      (shrink_capacity_merger gMergerGreater 2 0 1).1.capAt 0 =
        min (gMergerGreater.capAt 0) (gMergerGreater.capAt 2) ∧
      (shrink_capacity_merger gMergerGreater 2 0 1).1.capAt 1 =
        min (gMergerGreater.capAt 1) (gMergerGreater.capAt 2) ∧
      (∀ j, j ≠ 2 → j ≠ 0 → j ≠ 1 →
        (shrink_capacity_merger gMergerGreater 2 0 1).1.capAt j =
          gMergerGreater.capAt j) ∧
      ((shrink_capacity_merger gMergerGreater 2 0 1).2 = true ↔
        gMergerGreater.capAt 2 < gMergerGreater.capAt 0 ∨
        gMergerGreater.capAt 2 < gMergerGreater.capAt 1)) :=
  ⟨⟨by decide, by decide, by decide⟩,
    shrink_capacity_merger_spec gMergerGreater 2 0 1 (by decide) (by decide)
      (by decide)⟩

/-- C7: every capacity-shrinking rule (connector, splitter with and
without priority, merger) never increases any edge capacity, and when
it reports a change it strictly decreases at least one capacity. -/
theorem shrink_rules_monotone :
    (∀ (g : Graph) (i o : EdgeId),
      (∀ j, (shrink_capacity_connector g i o).1.capAt j ≤ g.capAt j) ∧
      ((shrink_capacity_connector g i o).2 = true →
        ∃ j, (shrink_capacity_connector g i o).1.capAt j < g.capAt j)) ∧
    (∀ (g : Graph) (i p o : EdgeId), i ≠ p → i ≠ o → p ≠ o →
      (∀ j, (shrink_capacity_splitter_prio g i p o).1.capAt j ≤ g.capAt j) ∧
      ((shrink_capacity_splitter_prio g i p o).2 = true →
        ∃ j, (shrink_capacity_splitter_prio g i p o).1.capAt j < g.capAt j)) ∧
    (∀ (g : Graph) (i a b : EdgeId), i ≠ a → i ≠ b → a ≠ b →
      ∀ (g' : Graph) (fl : Bool),
        shrink_capacity_splitter_no_prio g i a b = some (g', fl) →
        (∀ j, g'.capAt j ≤ g.capAt j) ∧
        (fl = true → ∃ j, g'.capAt j < g.capAt j)) ∧
    (∀ (g : Graph) (oi ai bi : EdgeId), oi ≠ ai → oi ≠ bi → ai ≠ bi →
      (∀ j, (shrink_capacity_merger g oi ai bi).1.capAt j ≤ g.capAt j) ∧
      ((shrink_capacity_merger g oi ai bi).2 = true →
        ∃ j, (shrink_capacity_merger g oi ai bi).1.capAt j < g.capAt j)) := by
  refine ⟨shrink_connector_mono, shrink_splitter_prio_mono,
    shrink_splitter_no_prio_mono, ?_⟩
  intro g oi ai bi hoa hob hab
  obtain ⟨hO, hA, hB, hU, hF⟩ := shrink_merger_caps g oi ai bi hoa hob hab
  constructor
  · intro j
    by_cases hj1 : j = oi
    · subst hj1; rw [hO]
    · by_cases hj2 : j = ai
      · subst hj2; rw [hA]; exact min_le_left _ _
      · by_cases hj3 : j = bi
        · subst hj3; rw [hB]; exact min_le_left _ _
        · rw [hU j hj1 hj2 hj3]
  · intro hfl
    rcases hF.mp hfl with h | h
    · exact ⟨ai, by rw [hA]; exact (min_le_right _ _).trans_lt h⟩
    · exact ⟨bi, by rw [hB]; exact (min_le_right _ _).trans_lt h⟩

end Verifactory

namespace Verifactory

/-- Witness for C7: the four rules applied to concrete graphs. -/
theorem shrink_rules_monotone_witness :
    (∀ j, (shrink_capacity_connector gConnCaps 0 1).1.capAt j ≤
      gConnCaps.capAt j) ∧
    (∃ j, (shrink_capacity_connector gConnCaps 0 1).1.capAt j <
      gConnCaps.capAt j) ∧
    (∀ j, (shrink_capacity_splitter_prio gSplitPrio 0 1 2).1.capAt j ≤
      gSplitPrio.capAt j) ∧
    (∃ r, shrink_capacity_splitter_no_prio gSplitLess 0 1 2 = some r ∧
      ∀ j, r.1.capAt j ≤ gSplitLess.capAt j) ∧
    (∀ j, (shrink_capacity_merger gMergerGreater 2 0 1).1.capAt j ≤
      gMergerGreater.capAt j) := by
  have hconn := shrink_rules_monotone.1 gConnCaps 0 1
  have hflag : (shrink_capacity_connector gConnCaps 0 1).2 = true := by
    norm_num [shrink_capacity_connector, gConnCaps, Graph.capAt, List.find?]
  have ht : tSplitterNoPrio gSplitLess 0 1 2 = some (5, 2, 3) := by
    norm_num [tSplitterNoPrio, gSplitLess, Graph.capAt, List.find?]
  have heq : shrink_capacity_splitter_no_prio gSplitLess 0 1 2 =
      some (((gSplitLess.setCap 0 5).setCap 1 2).setCap 2 3, true) := by
    rw [shrink_splitter_no_prio_eq, ht]
    simp only [Option.map_some']
    refine congrArg some (Prod.ext rfl ?_)
    norm_num [gSplitLess, Graph.capAt, List.find?]
  refine ⟨hconn.1, hconn.2 hflag, ?_, ?_, ?_⟩
  · exact (shrink_rules_monotone.2.1 gSplitPrio 0 1 2 (by decide) (by decide)
      (by decide)).1
  · exact ⟨(((gSplitLess.setCap 0 5).setCap 1 2).setCap 2 3, true), heq,
      (shrink_rules_monotone.2.2.1 gSplitLess 0 1 2 (by decide) (by decide)
        (by decide) _ true heq).1⟩
  · exact (shrink_rules_monotone.2.2.2 gMergerGreater 2 0 1 (by decide)
      (by decide) (by decide)).1

end Verifactory

namespace Verifactory

theorem length_in_nodes (g : Graph) (n : NodeId) :
    (g.in_nodes n).length = g.in_deg n := by
  simp [Graph.in_nodes, Graph.in_deg]

theorem length_out_nodes (g : Graph) (n : NodeId) :
    (g.out_nodes n).length = g.out_deg n := by
  simp [Graph.out_nodes, Graph.out_deg]

theorem coalesce_fixpoint_degrees (g : Graph) (s : CoalesceStrength)
    (h : coalesce_nodes g s = none) : degreeInvariantsAtFixpoint g = true := by
  unfold degreeInvariantsAtFixpoint
  rw [List.all_eq_true]
  intro p hp
  have hstep : coalesceNodeStep g s p.1 p.2 = none :=
    List.findSome?_eq_none_iff.mp h p hp
  rcases p with ⟨n, node⟩
  cases node with
  | Input i =>
    simp only [nodeDegreesAtFixpoint, decide_eq_true_eq]
    intro hc
    simp [coalesceNodeStep, hc.1, hc.2] at hstep
  | Output o =>
    simp only [nodeDegreesAtFixpoint, decide_eq_true_eq]
    intro hc
    simp [coalesceNodeStep, hc.1, hc.2] at hstep
  | Connector c =>
    simp only [nodeDegreesAtFixpoint, decide_eq_true_eq]
    by_cases hz : g.in_deg n = 0 ∨ g.out_deg n = 0
    · simp [coalesceNodeStep, hz] at hstep
    · push_neg at hz
      exact ⟨Nat.one_le_iff_ne_zero.mpr hz.1, Nat.one_le_iff_ne_zero.mpr hz.2⟩
  | Merger m =>
    simp only [nodeDegreesAtFixpoint, decide_eq_true_eq]
    by_cases hz : g.in_deg n = 0 ∨ g.out_deg n = 0
    · simp [coalesceNodeStep, hz] at hstep
    · push_neg at hz
      refine ⟨Nat.one_le_iff_ne_zero.mpr hz.1, Nat.one_le_iff_ne_zero.mpr hz.2, ?_⟩
      cases hinn : g.in_nodes n with
      | nil =>
        have := length_in_nodes g n
        rw [hinn] at this
        exact absurd this.symm hz.1
      | cons src rest =>
        cases houtn : g.out_nodes n with
        | nil =>
          have := length_out_nodes g n
          rw [houtn] at this
          exact absurd this.symm hz.2
        | cons tgt rest2 =>
          by_cases h3 : g.in_deg n + g.out_deg n = 3
          · exact h3
          · simp [coalesceNodeStep, hz, hinn, houtn, h3] at hstep
  | Splitter sp =>
    simp only [nodeDegreesAtFixpoint, decide_eq_true_eq]
    by_cases hz : g.in_deg n = 0 ∨ g.out_deg n = 0
    · simp [coalesceNodeStep, hz] at hstep
    · push_neg at hz
      refine ⟨Nat.one_le_iff_ne_zero.mpr hz.1, Nat.one_le_iff_ne_zero.mpr hz.2, ?_⟩
      cases hinn : g.in_nodes n with
      | nil =>
        have := length_in_nodes g n
        rw [hinn] at this
        exact absurd this.symm hz.1
      | cons src rest =>
        cases houtn : g.out_nodes n with
        | nil =>
          have := length_out_nodes g n
          rw [houtn] at this
          exact absurd this.symm hz.2
        | cons tgt rest2 =>
          by_cases h3 : g.in_deg n + g.out_deg n = 3
          · exact h3
          · simp [coalesceNodeStep, hz, hinn, houtn, h3] at hstep

theorem simplifyLoop_coalesce_none (fuel : Nat) (g : Graph)
    (s : CoalesceStrength) (g' : Graph) (h : simplifyLoop fuel g s = some g') :
    coalesce_nodes g' s = none := by
  induction fuel generalizing g with
  | zero => simp [simplifyLoop] at h
  | succ n ih =>
    rw [simplifyLoop] at h
    cases hc : coalesce_nodes g s with
    | some g2 => rw [hc] at h; exact ih g2 h
    | none =>
      rw [hc] at h
      cases hs : shrink_capacities g with
      | none => rw [hs] at h; exact absurd h (by simp)
      | some o =>
        cases o with
        | none =>
          rw [hs] at h
          have : g = g' := by simpa using h
          subst this
          exact hc
        | some g2 => rw [hs] at h; exact ih g2 h

end Verifactory

namespace Verifactory

/-- C4 counterexample: `simplify` returns `gTwoInputs` unchanged, yet
node 0 is an `Input` with in-degree 1 and out-degree 0, violating the
claimed degree invariant. -/
theorem simplify_degree_claim_cex :
    ¬ (∀ (fuel : Nat) (g : Graph) (ex : List EntityId) (s : CoalesceStrength)
        (g' : Graph), simplify fuel g ex s = some g' →
        degreeInvariantsClaimed g' = true) := by
  intro hall
  have h1 : simplify 1 gTwoInputs [] CoalesceStrength.Aggressive =
      some gTwoInputs := by rfl
  have h2 := hall 1 gTwoInputs [] CoalesceStrength.Aggressive gTwoInputs h1
  have h3 : degreeInvariantsClaimed gTwoInputs = false := by rfl
  rw [h3] at h2
  exact Bool.false_ne_true h2

/-- C4 (amended): whenever `simplify` returns, the resulting graph
satisfies the invariant actually enforced by the coalesce fixed point:
no isolated `Input`/`Output`, every `Connector` has in- and out-degree
at least 1, and every `Splitter` and `Merger` has in- and out-degree at
least 1 with total degree exactly 3. -/
theorem simplify_degree_invariants (fuel : Nat) (g : Graph)
    (ex : List EntityId) (s : CoalesceStrength) (g' : Graph)
    (h : simplify fuel g ex s = some g') :
    degreeInvariantsAtFixpoint g' = true :=
  coalesce_fixpoint_degrees g' s (simplifyLoop_coalesce_none fuel _ s g' h)

/-- Witness for C4 (amended) on the two-`Input` graph. -/
theorem simplify_degree_invariants_witness :
    degreeInvariantsAtFixpoint gTwoInputs = true :=
  simplify_degree_invariants 1 gTwoInputs [] CoalesceStrength.Aggressive
    gTwoInputs rfl

end Verifactory

namespace Verifactory

theorem side_join_isSome_of_can_join (s1 s2 : Side)
    (h : s1.can_join s2 = true) : ∃ s, s1.join s2 = some s := by
  cases s1 <;> cases s2 <;> simp_all [Side.can_join, Side.join]

theorem edge_join_isSome_of_can_join (e1 e2 : Edge)
    (h : e1.can_join e2 = true) : ∃ ej, e1.join e2 = some ej := by
  obtain ⟨s, hs⟩ := side_join_isSome_of_can_join e1.side e2.side h
  exact ⟨⟨s, min e1.capacity e2.capacity⟩, by simp [Edge.join, hs]⟩

theorem connector_step_eval (g : Graph) (n : NodeId) (c : Connector)
    (a b : NodeId) (ie oe : EdgeId) (e1 e2 : Edge)
    (hin : g.in_edges_of n = [(ie, ⟨a, n, e1⟩)])
    (hout : g.out_edges_of n = [(oe, ⟨n, b, e2⟩)]) :
    coalesceNodeStep g CoalesceStrength.Aggressive n (.Connector c) =
      if isSplitterOrMerger (g.node? a) = true ∧
          isSplitterOrMerger (g.node? b) = true then none
      else if e1.can_join e2 then
        match e1.join e2 with
        | some ej => some ((g.add_edge a b ej).remove_node n)
        | none => none
      else none := by
  have hdi : g.in_deg n = 1 := by rw [Graph.in_deg, hin]; rfl
  have hdo : g.out_deg n = 1 := by rw [Graph.out_deg, hout]; rfl
  simp only [coalesceNodeStep, hdi, hdo, Graph.in_nodes, Graph.out_nodes,
    Graph.in_edges, Graph.out_edges, hin, hout, List.map_cons, List.map_nil]
  norm_num
  by_cases hP : isSplitterOrMerger (g.node? a) = true ∧
      isSplitterOrMerger (g.node? b) = true
  · rw [if_pos hP, if_pos hP]
  · rw [if_neg hP, if_neg hP, if_neg (fun hq => CoalesceStrength.noConfusion hq.1)]

end Verifactory

namespace Verifactory

/-- C5: for a `Connector` with unique predecessor `a` and unique
successor `b`, the (Aggressive) coalesce rule removes the connector and
adds an edge `a → b` labelled `join(in_edge, out_edge)` exactly when
the two incident edges can join and `(a, b)` is not the forbidden
Splitter/Merger-between pattern; the joined label's capacity is the
minimum of the two capacities. -/
theorem connector_coalesce_spec (g : Graph) (n : NodeId) (c : Connector)
    (a b : NodeId) (ie oe : EdgeId) (e1 e2 : Edge)
    (hin : g.in_edges_of n = [(ie, ⟨a, n, e1⟩)])
    (hout : g.out_edges_of n = [(oe, ⟨n, b, e2⟩)]) :
    ((∃ g', coalesceNodeStep g CoalesceStrength.Aggressive n (.Connector c) =
        some g') ↔
      (e1.can_join e2 = true ∧
        ¬(isSplitterOrMerger (g.node? a) = true ∧
          isSplitterOrMerger (g.node? b) = true))) ∧
    (∀ ej, e1.join e2 = some ej →
      ¬(isSplitterOrMerger (g.node? a) = true ∧
        isSplitterOrMerger (g.node? b) = true) →
      coalesceNodeStep g CoalesceStrength.Aggressive n (.Connector c) =
        some ((g.add_edge a b ej).remove_node n)) ∧
    (∀ ej, e1.join e2 = some ej →
      ej.capacity = min e1.capacity e2.capacity) := by
  have hstep := connector_step_eval g n c a b ie oe e1 e2 hin hout
  refine ⟨⟨?_, ?_⟩, ?_, ?_⟩
  · rintro ⟨g', hg'⟩
    rw [hstep] at hg'
    by_cases hP : isSplitterOrMerger (g.node? a) = true ∧
        isSplitterOrMerger (g.node? b) = true
    · rw [if_pos hP] at hg'
      exact absurd hg' (by simp)
    · rw [if_neg hP] at hg'
      by_cases hJ : e1.can_join e2 = true
      · exact ⟨hJ, hP⟩
      · rw [if_neg hJ] at hg'
        exact absurd hg' (by simp)
  · rintro ⟨hJ, hP⟩
    obtain ⟨ej, hej⟩ := edge_join_isSome_of_can_join e1 e2 hJ
    rw [hstep, if_neg hP, if_pos hJ, hej]
    exact ⟨_, rfl⟩
  · intro ej hej hP
    have hJ : e1.can_join e2 = true := by
      obtain ⟨s, hs, -⟩ := Option.map_eq_some'.mp hej
      rw [Edge.can_join]
      cases h1 : e1.side <;> cases h2 : e2.side <;> rw [h1, h2] at hs <;>
        simp_all [Side.join, Side.can_join]
    rw [hstep, if_neg hP, if_pos hJ, hej]
  · intro ej hej
    obtain ⟨s, hs, hejeq⟩ := Option.map_eq_some'.mp hej
    rw [← hejeq]

/-- Witness for C5 on `gConnCaps`. -/
theorem connector_coalesce_spec_witness :
    ∃ g', coalesceNodeStep gConnCaps CoalesceStrength.Aggressive 1
      (.Connector ⟨1⟩) = some g' :=
  (connector_coalesce_spec gConnCaps 1 ⟨1⟩ 0 2 0 1 ⟨Side.None, 10⟩
    ⟨Side.None, 5⟩ rfl rfl).1.mpr ⟨by decide, by decide⟩

end Verifactory

namespace Verifactory

/-- C2: under normal flags the emitted splitter constraint is: without
priority, ordering the outputs so `ca ≤ cb`, `if in ≤ 2·ca then a = b
else a = ca`; with a side priority of capacity `cp`, `if in ≤ cp then
other = 0 else prio = cp`; and `Splitter::model` with empty flags
pushes exactly this condition. -/
theorem get_splitter_cond_spec :
    (∀ (g : Graph) (s : Splitter) (n : NodeId) (helper : Z3QuantHelper)
      (i : EdgeId) (ir : List EdgeId) (a b : EdgeId) (vi va vb : Term)
      (e : Env),
      s.output_priority = Side.None →
      g.in_edge_idx n = i :: ir →
      g.out_edge_idx n = [a, b] →
      lookupT helper.edge_map i = some vi →
      lookupT helper.edge_map a = some va →
      lookupT helper.edge_map b = some vb →
      g.capAt a ≤ g.capAt b →
      ∃ φ, get_splitter_cond g s n helper = some φ ∧
        (BF.holds e φ ↔
          if Term.eval e vi ≤ 2 * (g.capAt a : ℚ)
          then Term.eval e va = Term.eval e vb
          else Term.eval e va = (g.capAt a : ℚ))) ∧
    (∀ (g : Graph) (s : Splitter) (n : NodeId) (helper : Z3QuantHelper)
      (i : EdgeId) (ir : List EdgeId) (pidx oidx : EdgeId) (vi vp vo : Term)
      (e : Env),
      s.output_priority.is_none = false →
      g.in_edge_idx n = i :: ir →
      g.get_edge_out n s.output_priority = some pidx →
      g.get_edge_out n (-s.output_priority) = some oidx →
      lookupT helper.edge_map i = some vi →
      lookupT helper.edge_map pidx = some vp →
      lookupT helper.edge_map oidx = some vo →
      ∃ φ, get_splitter_cond g s n helper = some φ ∧
        (BF.holds e φ ↔
          if Term.eval e vi ≤ (g.capAt pidx : ℚ)
          then Term.eval e vo = 0
          else Term.eval e vp = (g.capAt pidx : ℚ))) ∧
    (∀ (g : Graph) (s : Splitter) (n : NodeId) (helper h1 : Z3QuantHelper)
      (φ : BF),
      kirchhoff_law g n helper = some h1 →
      get_splitter_cond g s n h1 = some φ →
      splitterModel g n s helper ModelFlags.empty =
        some { h1 with others := h1.others ++ [φ] }) := by
  refine ⟨?_, ?_, ?_⟩
  · intro g s n helper i ir a b vi va vb e hprio hin hout hvi hva hvb hcap
    have hnone : s.output_priority.is_none = true := by
      rw [hprio]; rfl
    refine ⟨BF.ite (BF.le vi (Term.litR ((g.capAt a * 2 : NNRat) : ℚ)))
      (BF.eq va vb) (BF.eq va (Term.litR ((g.capAt a : NNRat) : ℚ))), ?_, ?_⟩
    · simp only [get_splitter_cond, hin, hout, hnone, hvi, hva, hvb,
        List.getElem?_cons_zero, List.getElem?_cons_succ, Option.bind_some,
        if_true, if_pos hcap]
      simp [hvi, hva, hvb, if_pos hcap]
    · have hC : ((g.capAt a * 2 : NNRat) : ℚ) = 2 * (g.capAt a : ℚ) := by
        push_cast
        ring
      simp only [BF.holds, Term.eval, hC]
      by_cases h : Term.eval e vi ≤ 2 * (g.capAt a : ℚ)
      · simp [h]
      · simp [h]
  · intro g s n helper i ir pidx oidx vi vp vo e hprio hin hp ho hvi hvp hvo
    refine ⟨BF.ite (BF.le vi (Term.litR ((g.capAt pidx : NNRat) : ℚ)))
      (BF.eq vo (Term.litR 0)) (BF.eq vp (Term.litR ((g.capAt pidx : NNRat) : ℚ))),
      ?_, ?_⟩
    · simp only [get_splitter_cond, hin, hprio, hp, ho, hvi, hvp, hvo,
        List.getElem?_cons_zero, Option.bind_some, Bool.false_eq_true,
        if_false]
      simp [hvi, hvp, hvo]
    · simp only [BF.holds, Term.eval]
      by_cases h : Term.eval e vi ≤ (g.capAt pidx : ℚ)
      · simp [h]
      · simp [h]
  · intro g s n helper h1 φ hk hc
    simp [splitterModel, hk, hc, ModelFlags.empty]

end Verifactory

namespace Verifactory

/-- Witness for C2 on `gSplit` and `gSplitPrio` with `splitHelper`. -/
theorem get_splitter_cond_spec_witness :
    (∃ φ, get_splitter_cond gSplit ⟨Side.None, 1⟩ 1 splitHelper = some φ ∧
      (BF.holds env0 φ ↔
        if Term.eval env0 (Term.varR "e0") ≤ 2 * (gSplit.capAt 1 : ℚ)
        then Term.eval env0 (Term.varR "e1") = Term.eval env0 (Term.varR "e2")
        else Term.eval env0 (Term.varR "e1") = (gSplit.capAt 1 : ℚ))) ∧
    (∃ φ, get_splitter_cond gSplitPrio ⟨Side.Left, 1⟩ 1 splitHelper = some φ ∧
      (BF.holds env0 φ ↔
        if Term.eval env0 (Term.varR "e0") ≤ (gSplitPrio.capAt 1 : ℚ)
        then Term.eval env0 (Term.varR "e2") = 0
        else Term.eval env0 (Term.varR "e1") = (gSplitPrio.capAt 1 : ℚ))) :=
  ⟨get_splitter_cond_spec.1 gSplit ⟨Side.None, 1⟩ 1 splitHelper 0 [] 1 2
      (Term.varR "e0") (Term.varR "e1") (Term.varR "e2") env0 rfl rfl rfl rfl
      rfl rfl (by decide),
    get_splitter_cond_spec.2.1 gSplitPrio ⟨Side.Left, 1⟩ 1 splitHelper 0 [] 1 2
      (Term.varR "e0") (Term.varR "e1") (Term.varR "e2") env0 rfl rfl rfl rfl
      rfl rfl rfl⟩

end Verifactory

namespace Verifactory

/-- C3 (code bug evidence): on the failing input `gInOut` (an `Input`
of entity id 3 feeding an `Output` of entity id 4), `Input::model`
declares `input_3` as a *Real* constant and asserts `input_3 = edge`
with no int-to-real coercion, even though `Z3QuantHelper` declares
`input_map: HashMap<NodeIndex, Int>`; the lowering the spec describes
(`inputModelSpec`) declares an *Int* constant and asserts the coerced
equality.  The two sorts differ. -/
theorem input_lowering_declares_real :
    mkHelper gInOut ModelFlags.empty = some
      { edge_map := [(0, Term.varR "edge_i3_o4_0")],
        input_map := [(0, Term.varR "input_3")],
        output_map := [(1, Term.varR "output_4")],
        others := [BF.le (Term.varR "edge_i3_o4_0") (Term.litR ((15 : NNRat) : ℚ)),
          BF.ge (Term.varR "edge_i3_o4_0") (Term.litR 0),
          BF.eq (Term.varR "input_3") (Term.varR "edge_i3_o4_0"),
          BF.eq (Term.varR "output_4") (Term.varR "edge_i3_o4_0")],
        decls := [("edge_i3_o4_0", ZSort.real), ("input_3", ZSort.real),
          ("output_4", ZSort.real)] } ∧
    inputModelSpec gInOut 0 ⟨3⟩ gInOutEdgePhase = some
      { edge_map := [(0, Term.varR "edge_i3_o4_0")],
        input_map := [(0, Term.varI "input_3")],
        others := [BF.le (Term.varR "edge_i3_o4_0") (Term.litR ((15 : NNRat) : ℚ)),
          BF.ge (Term.varR "edge_i3_o4_0") (Term.litR 0),
          BF.eq (Term.fromInt (Term.varI "input_3")) (Term.varR "edge_i3_o4_0")],
        decls := [("edge_i3_o4_0", ZSort.real), ("input_3", ZSort.int)] } ∧
    ZSort.real ≠ ZSort.int :=
  ⟨rfl, rfl, by decide⟩

end Verifactory

namespace Verifactory

theorem belt_empty_unsat :
    ¬ Satisfiable (BF.and [BF.not (equality []), BF.and []]) := by
  rintro ⟨e, he⟩
  simp [BF.holds, BF.holdsAll, equality] at he

theorem drain_empty_unsat :
    ¬ Satisfiable (BF.and [BF.and [],
      BF.not (BF.implies (equality []) (equality []))]) := by
  rintro ⟨e, he⟩
  simp [BF.holds, BF.holdsAll, equality] at he

theorem throughput_empty_unsat :
    ¬ Satisfiable (BF.and [BF.and [], BF.and [],
      BF.eq (Term.fromInt (Term.litI 0)) (Term.fromInt (Term.litI 0)),
      BF.allR [] (BF.not (BF.and []))]) := by
  rintro ⟨e, he⟩
  simp only [BF.holds, BF.holdsAll] at he
  have h4 := he.2.2.2.1
  have := h4 [] rfl
  simp [BF.holds, BF.holdsAll, Env.updList, updFun] at this

theorem universal_empty_unsat :
    ¬ Satisfiable (BF.and [BF.and [], BF.and [],
      BF.not (BF.exR ["output_value"] (BF.and []))]) := by
  rintro ⟨e, he⟩
  simp only [BF.holds, BF.holdsAll] at he
  exact he.2.2.1 ⟨[0], rfl, by simp [BF.holds, BF.holdsAll]⟩

end Verifactory

namespace Verifactory

/-- C9: for the empty flow graph (the lowering of the empty blueprint),
each of the four property checks — belt balancer, equal drain,
throughput-unlimited and universal balancer — reports `Sat`, for any
sound solver that does not answer `Unknown`. -/
theorem empty_blueprint_all_sat (check : BF → SatResult)
    (hsound : SoundCheck check)
    (hdec : ∀ φ, check φ ≠ SatResult.Unknown) :
    model_f check emptyGraph belt_balancer_f ModelFlags.empty =
      some ProofResult.Sat ∧
    model_f check emptyGraph equal_drain_f ModelFlags.empty =
      some ProofResult.Sat ∧
    model_f check emptyGraph (throughput_unlimited []) ⟨true, false⟩ =
      some ProofResult.Sat ∧
    model_f check emptyGraph universal_balancer ⟨false, true⟩ =
      some ProofResult.Sat := by
  have key : ∀ φ, ¬ Satisfiable φ →
      ProofResult.not (ProofResult.ofSatResult (check φ)) = ProofResult.Sat := by
    intro φ hunsat
    cases hc : check φ with
    | Sat => exact absurd (hsound φ hc) hunsat
    | Unknown => exact absurd hc (hdec φ)
    | Unsat => rfl
  refine ⟨?_, ?_, ?_, ?_⟩
  · have h0 : model_f check emptyGraph belt_balancer_f ModelFlags.empty =
        some (ProofResult.not (ProofResult.ofSatResult
          (check (BF.and [BF.not (equality []), BF.and []])))) := rfl
    rw [h0, key _ belt_empty_unsat]
  · have h0 : model_f check emptyGraph equal_drain_f ModelFlags.empty =
        some (ProofResult.not (ProofResult.ofSatResult
          (check (BF.and [BF.and [],
            BF.not (BF.implies (equality []) (equality []))])))) := rfl
    rw [h0, key _ drain_empty_unsat]
  · have h0 : model_f check emptyGraph (throughput_unlimited []) ⟨true, false⟩ =
        some (ProofResult.not (ProofResult.ofSatResult
          (check (BF.and [BF.and [], BF.and [],
            BF.eq (Term.fromInt (Term.litI 0)) (Term.fromInt (Term.litI 0)),
            BF.allR [] (BF.not (BF.and []))])))) := rfl
    rw [h0, key _ throughput_empty_unsat]
  · have h0 : model_f check emptyGraph universal_balancer ⟨false, true⟩ =
        some (ProofResult.not (ProofResult.ofSatResult
          (check (BF.and [BF.and [], BF.and [],
            BF.not (BF.exR ["output_value"] (BF.and []))])))) := rfl
    rw [h0, key _ universal_empty_unsat]

/-- Witness for C9 with the constantly-`Unsat` solver. -/
theorem empty_blueprint_all_sat_witness :
    model_f (fun _ => SatResult.Unsat) emptyGraph belt_balancer_f
      ModelFlags.empty = some ProofResult.Sat ∧
    model_f (fun _ => SatResult.Unsat) emptyGraph equal_drain_f
      ModelFlags.empty = some ProofResult.Sat ∧
    model_f (fun _ => SatResult.Unsat) emptyGraph (throughput_unlimited [])
      ⟨true, false⟩ = some ProofResult.Sat ∧
    model_f (fun _ => SatResult.Unsat) emptyGraph universal_balancer
      ⟨false, true⟩ = some ProofResult.Sat :=
  empty_blueprint_all_sat (fun _ => SatResult.Unsat)
    (fun _ h => nomatch h) (fun _ h => nomatch h)

/-- C10: whenever the lowering of a graph yields at most one output
variable, the output-equality condition is the empty conjunction (hence
true), the belt-balancer formula `¬true ∧ M` is unsatisfiable, and the
belt-balancer check reports `Sat` regardless of the graph's structure. -/
theorem single_output_always_balancer (g : Graph) (flags : ModelFlags)
    (p : ProofPrimitives) (hp : mkPrimitives g flags = some p)
    (hlen : p.output_bounds.length ≤ 1)
    (check : BF → SatResult) (hsound : SoundCheck check)
    (hdec : check (BF.and [BF.not (equality p.output_bounds),
      p.model_constraint]) ≠ SatResult.Unknown) :
    equality p.output_bounds = BF.and [] ∧
    model_f check g belt_balancer_f flags = some ProofResult.Sat := by
  have heqty : equality p.output_bounds = BF.and [] := by
    rcases hb : p.output_bounds with _ | ⟨x, _ | ⟨y, rest⟩⟩
    · rfl
    · rfl
    · rw [hb] at hlen
      simp at hlen
  have hlist : (p.output_bounds.zip p.output_bounds.tail).map
      (fun q => BF.eq q.1 q.2) = [] := by
    have h := heqty
    rw [equality] at h
    exact BF.and.inj h
  have hunsat : ¬ Satisfiable (BF.and [BF.not (equality p.output_bounds),
      p.model_constraint]) := by
    rintro ⟨e, he⟩
    simp only [BF.holds, BF.holdsAll, equality] at he
    refine he.1 ?_
    rw [hlist]
    simp [BF.holdsAll]
  have hmf : model_f check g belt_balancer_f flags =
      some (ProofResult.not (ProofResult.ofSatResult
        (check (BF.and [BF.not (equality p.output_bounds),
          p.model_constraint])))) := by
    simp [model_f, hp, belt_balancer_f]
  refine ⟨heqty, ?_⟩
  rw [hmf]
  cases hc : check (BF.and [BF.not (equality p.output_bounds),
      p.model_constraint]) with
  | Sat => exact absurd (hsound _ hc) hunsat
  | Unknown => exact absurd hc hdec
  | Unsat => rfl

/-- Witness for C10 at the empty graph. -/
theorem single_output_always_balancer_witness :
    equality ([] : List Term) = BF.and [] ∧
    model_f (fun _ => SatResult.Unsat) emptyGraph belt_balancer_f
      ModelFlags.empty = some ProofResult.Sat :=
  single_output_always_balancer emptyGraph ModelFlags.empty
    { graph := emptyGraph, input_bounds := [], input_map := [],
      output_bounds := [], output_map := [], blocked_input_map := [],
      blocked_output_map := [], edge_bounds := [],
      model_constraint := vec_and [], blocking_constraint := [] }
    rfl (by decide) (fun _ => SatResult.Unsat) (fun _ h => nomatch h)
    (fun h => nomatch h)

end Verifactory
